import Mathlib

/-!
# http-daemon: route registry, dispatcher and response envelope

A shallow embedding of `daemon.go` (package `httpdaemon`).

* The package-level variable `routerTable` and the standard logger are carried
  in an explicit `World`, together with the application state that handlers act on.
* An `http.ResponseWriter` is the sequence of chunks written to it so far.
* Go's `error` is `Option String`: `none` is `nil`, `some e` an error whose text is `e`.
* A Go `string` is a `String`: text that is valid UTF-8.
* `encoding/json`, `net/url` and `net/http` are library code.  This package reads a byte
  string only through `json.Unmarshal` and produces one only through `json.Marshal`, so a
  byte string is represented by the JSON document it spells (`Bytes.text`), or marked as
  spelling none (`Bytes.invalid`).  What the library does with a document (key order,
  duplicate keys, number conversion, nesting limit, unsupported values) is modelled below.
* `Run` only starts the listener with `rootHandler` as its handler; it is not modelled.
-/

namespace httpdaemon

/-! ## Numbers -/

/-- A finite `float64`: the value `(-1)^neg * mant * 2^exp`, in the IEEE-754 layout
`mant < 2^53`, `-1074 ≤ exp ≤ 971`, and `2^52 ≤ mant` unless `exp = -1074`. -/
structure Float64 where
  neg : Bool
  mant : Nat
  exp : Int
deriving DecidableEq

/-- Number of halvings that bring `n` below 2, with `fuel` steps available. -/
def log2Fuel : Nat → Nat → Nat
  | 0, _ => 0
  | fuel + 1, n => if n < 2 then 0 else log2Fuel fuel (n / 2) + 1

/-- Position of the leading bit of `n` (0 for `n = 0`). Shifts by `k` below stand for
multiplication and division by `2^k`. -/
def log2 (n : Nat) : Nat := log2Fuel n n

/-- The integer `e` with `2^e ≤ num / den < 2^(e+1)`, for positive `num` and `den`. -/
def floorLog2 (num den : Nat) : Int :=
  let e0 : Int := (log2 num : Int) - (log2 den : Int)
  if den <<< e0.toNat ≤ num <<< (-e0).toNat then e0 else e0 - 1

/-- Round the positive rational `num / den` to the nearest `float64`, ties to the even
mantissa; `none` when the result exceeds the largest finite `float64`. This is what
`strconv.ParseFloat(s, 64)` computes (it reports `ErrRange` in the `none` case); a value
below the smallest subnormal rounds to zero without an error. -/
def roundToFloat64 (neg : Bool) (num den : Nat) : Option Float64 :=
  if num = 0 then some ⟨neg, 0, -1074⟩ else
  let e := floorLog2 num den
  let s : Int := max (e - 52) (-1074)
  let n := num <<< (-s).toNat
  let d := den <<< s.toNat
  let q := n / d
  let r := n % d
  let m := if 2 * r < d then q else if d < 2 * r then q + 1 else if q % 2 = 0 then q else q + 1
  let m1 := if m = 2 ^ 53 then 2 ^ 52 else m
  let s1 := if m = 2 ^ 53 then s + 1 else s
  if 971 < s1 then none else some ⟨neg, m1, s1⟩

/-- The conversion `int(f)` of a `float64` to a 64-bit `int`: truncation toward zero.
For a value outside the range of `int` the Go specification leaves the result to the
implementation; the amd64 result (the minimum `int`) is taken. -/
def Float64.toInt (f : Float64) : Int :=
  let a : Nat := if 0 ≤ f.exp then f.mant <<< f.exp.toNat else f.mant >>> (-f.exp).toNat
  let t : Int := if f.neg then -(a : Int) else (a : Int)
  if -2 ^ 63 ≤ t ∧ t < 2 ^ 63 then t else -2 ^ 63

/-- A JSON number literal. -/
inductive Number where
  /-- The literal `±mant·10^exp10`, e.g. `15, -1` for `1.5`. -/
  | decimal (neg : Bool) (mant : Nat) (exp10 : Int)
  /-- The literal that `strconv.AppendFloat` prints for the finite `float64` `f`: the
  shortest decimal that `strconv.ParseFloat` reads back as `f`. -/
  | float (f : Float64)
deriving DecidableEq

/-- The literal `json.Marshal` writes for a Go `int`: its decimal digits. -/
def Number.ofInt (n : Int) : Number := .decimal (decide (n < 0)) n.natAbs 0

/-- The `float64` that `strconv.ParseFloat` returns for a literal, `none` on `ErrRange`. -/
def Number.parseFloat : Number → Option Float64
  | .decimal neg mant exp10 =>
    if 0 ≤ exp10 then roundToFloat64 neg (mant * 10 ^ exp10.toNat) 1
    else roundToFloat64 neg mant (10 ^ (-exp10).toNat)
  | .float f => some f

/-! ## JSON documents and Go values -/

/-- A JSON document, members of an object in the order they are written. -/
inductive Json where
  | null
  | bool (b : Bool)
  | number (n : Number)
  | string (s : String)
  | array (elems : List Json)
  | object (members : List (String × Json))

/-- Go values that travel as `interface{}`: the six generic forms `json.Unmarshal`
produces, and three further forms a handler can hand to `response`. A
`map[string]interface{}` is listed by strictly increasing key. -/
inductive GoValue where
  | nil
  | bool (b : Bool)
  | float64 (f : Float64)
  | string (s : String)
  | slice (xs : List GoValue)
  | map (kvs : List (String × GoValue))
  /-- A Go `int`. -/
  | int (n : Int)
  /-- The value `struct{}{}`. -/
  | emptyStruct
  /-- A value `json.Marshal` rejects, such as a channel or a function. -/
  | unsupported

/-- Byte strings, up to what `encoding/json` reads in them. -/
inductive Bytes where
  /-- The bytes are a JSON text spelling `doc`. -/
  | text (doc : Json)
  /-- The bytes `raw` are not a JSON text. -/
  | invalid (raw : String)

/-- Order of map keys: bytewise order of the UTF-8 strings. -/
def keyLt (a b : String) : Prop := a.toList < b.toList

instance (a b : String) : Decidable (keyLt a b) := by
  unfold keyLt; infer_instance

/-- The assignment `m[k] = v` on a map listed by increasing key. -/
def mapSet {β : Type} (k : String) (v : β) : List (String × β) → List (String × β)
  | [] => [(k, v)]
  | (k1, v1) :: rest =>
    if k = k1 then (k, v) :: rest
    else if keyLt k k1 then (k, v) :: (k1, v1) :: rest
    else (k1, v1) :: mapSet k v rest

/-- The lookup `v, ok := m[k]`. -/
def mapGet {β : Type} (k : String) : List (String × β) → Option β
  | [] => none
  | (k1, v1) :: rest => if k = k1 then some v1 else mapGet k rest

/-- The map built by assigning the members of an object from left to right. -/
def mapOfMembers {β : Type} (ms : List (String × β)) : List (String × β) :=
  ms.foldl (fun m kv => mapSet kv.1 kv.2 m) []

/-- Members sorted by key, the order in which `json.Marshal` writes a map. -/
def sortMembers (ms : List (String × Json)) : List (String × Json) :=
  ms.insertionSort (fun a b => ¬ keyLt b.1 a.1)

mutual
/-- The document `json.Marshal` writes for a value, or its error. -/
def marshalValue : GoValue → Except String Json
  | .nil => .ok .null
  | .bool b => .ok (.bool b)
  | .float64 f => .ok (.number (.float f))
  | .string s => .ok (.string s)
  | .slice xs =>
    match marshalSlice xs with
    | .ok js => .ok (.array js)
    | .error e => .error e
  | .map kvs =>
    match marshalMap kvs with
    | .ok ms => .ok (.object (sortMembers ms))
    | .error e => .error e
  | .int n => .ok (.number (Number.ofInt n))
  | .emptyStruct => .ok (.object [])
  | .unsupported => .error "json: unsupported type"
/-- Elements of a slice, in order. -/
def marshalSlice : List GoValue → Except String (List Json)
  | [] => .ok []
  | x :: xs =>
    match marshalValue x with
    | .error e => .error e
    | .ok j =>
      match marshalSlice xs with
      | .error e => .error e
      | .ok js => .ok (j :: js)
/-- Entries of a map. -/
def marshalMap : List (String × GoValue) → Except String (List (String × Json))
  | [] => .ok []
  | (k, x) :: kvs =>
    match marshalValue x with
    | .error e => .error e
    | .ok j =>
      match marshalMap kvs with
      | .error e => .error e
      | .ok ms => .ok ((k, j) :: ms)
end

mutual
/-- The value `json.Unmarshal` stores in an `interface{}` for a document. A number whose
`ParseFloat` fails leaves the `interface{}` at `nil` (the error is only recorded). -/
def decodeValue : Json → GoValue
  | .null => .nil
  | .bool b => .bool b
  | .number n =>
    match n.parseFloat with
    | some f => .float64 f
    | none => .nil
  | .string s => .string s
  | .array es => .slice (decodeArray es)
  | .object ms => .map (mapOfMembers (decodeMembers ms))
/-- Elements of an array, in order. -/
def decodeArray : List Json → List GoValue
  | [] => []
  | e :: es => decodeValue e :: decodeArray es
/-- Members of an object, each value decoded. -/
def decodeMembers : List (String × Json) → List (String × GoValue)
  | [] => []
  | (k, v) :: ms => (k, decodeValue v) :: decodeMembers ms
end

mutual
/-- Nesting depth of a document: arrays and objects count one level each. -/
def Json.depth : Json → Nat
  | .array es => Json.depthList es + 1
  | .object ms => Json.depthMembers ms + 1
  | _ => 0
/-- Largest depth among the elements. -/
def Json.depthList : List Json → Nat
  | [] => 0
  | e :: es => max (Json.depth e) (Json.depthList es)
/-- Largest depth among the member values. -/
def Json.depthMembers : List (String × Json) → Nat
  | [] => 0
  | (_, v) :: ms => max (Json.depth v) (Json.depthMembers ms)
end

/-- The scanner of `encoding/json` rejects a text nested deeper than this. -/
def maxNestingDepth : Nat := 10000

/-- The variable `unmar` after `json.Unmarshal(resBody, &unmar)` with `unmar` a nil
`map[string]interface{}`: the decoded members when the bytes are a JSON object within
the nesting limit, and the nil map (no keys) otherwise: `Unmarshal` validates the whole
text before it stores anything. -/
def Unmarshal (resBody : Bytes) : List (String × GoValue) :=
  match resBody with
  | .invalid _ => []
  | .text doc =>
    if maxNestingDepth < doc.depth then [] else
    match doc with
    | .object ms => mapOfMembers (decodeMembers ms)
    | _ => []

/-! ## Requests -/

/-- Hexadecimal digits used by percent-encoding. -/
def upperhex : List Char := "0123456789ABCDEF".toList

/-- The escape `%XX` of one byte. -/
def escapeByte (b : Nat) : List Char :=
  ['%', upperhex.getD (b / 16) '0', upperhex.getD (b % 16) '0']

/-- The function `shouldEscape(c, encodePath)` of `net/url` on an ASCII character. -/
def shouldEscape (c : Char) : Bool :=
  if c.isAlphanum then false
  else if c = '-' ∨ c = '_' ∨ c = '.' ∨ c = '~' then false
  else if c = '$' ∨ c = '&' ∨ c = '+' ∨ c = ',' ∨ c = '/' ∨ c = ':' ∨ c = ';' ∨ c = '='
      ∨ c = '@' then false
  else true

/-- The function `escape(s, encodePath)` of `net/url`: every byte that `shouldEscape`
selects is replaced by `%XX`; the bytes of a non-ASCII character are all selected. -/
def escape (s : String) : String :=
  String.mk (s.toList.flatMap fun c =>
    if c.toNat < 128 then (if shouldEscape c then escapeByte c.toNat else [c])
    else (String.utf8EncodeChar c).flatMap fun b => escapeByte b.toNat)

/-- The bytes of a string in UTF-8. -/
def utf8Bytes (s : String) : List Nat :=
  s.toList.flatMap fun c => (String.utf8EncodeChar c).map fun b => b.toNat

/-- The function `ishex` of `net/url`. -/
def ishex (c : Char) : Bool :=
  (decide (48 ≤ c.toNat) && decide (c.toNat ≤ 57)) ||
    (decide (97 ≤ c.toNat) && decide (c.toNat ≤ 102)) ||
    (decide (65 ≤ c.toNat) && decide (c.toNat ≤ 70))

/-- The function `unhex` of `net/url`. -/
def unhex (c : Char) : Nat :=
  if 48 ≤ c.toNat ∧ c.toNat ≤ 57 then c.toNat - 48
  else if 97 ≤ c.toNat ∧ c.toNat ≤ 102 then c.toNat - 97 + 10
  else if 65 ≤ c.toNat ∧ c.toNat ≤ 70 then c.toNat - 65 + 10
  else 0

/-- The function `unescape(s, encodePath)` of `net/url` on the characters of `s`: the
bytes of `s` with every `%XX` replaced by the byte it spells; `none` when a `%` is not
followed by two hexadecimal digits. -/
def unescapeChars : List Char → Option (List Nat)
  | [] => some []
  | c :: rest =>
    if c = '%' then
      match rest with
      | h1 :: h2 :: rest2 =>
        if ishex h1 && ishex h2 then
          match unescapeChars rest2 with
          | some bs => some ((unhex h1 * 16 + unhex h2) :: bs)
          | none => none
        else none
      | _ => none
    else
      match unescapeChars rest with
      | some bs => some (((String.utf8EncodeChar c).map fun b => b.toNat) ++ bs)
      | none => none

/-- The function `unescape(s, encodePath)` of `net/url`. -/
def unescape (s : String) : Option (List Nat) := unescapeChars s.toList

/-- The function `validEncoded(s, encodePath)` of `net/url`: every byte is one of
`! $ & ' ( ) * + , ; = : @ [ ] %` or a byte that `shouldEscape` leaves alone. -/
def validEncoded (s : String) : Bool :=
  s.toList.all fun c =>
    [33, 36, 38, 39, 40, 41, 42, 43, 44, 59, 61, 58, 64, 91, 93, 37].contains c.toNat ||
      (decide (c.toNat < 128) && !shouldEscape c)

/-- The fields of `net/url.URL` that the target of an origin-form request (`/path?query`)
sets. `Scheme`, `Opaque`, `User`, `Host` and `Fragment` are empty for such a request.
`Path` is the decoded path; `RawPath` is the path as it was sent when that is not the
default encoding of `Path`, and empty otherwise. -/
structure URL where
  Path : String
  RawPath : String
  ForceQuery : Bool
  RawQuery : String
deriving DecidableEq

/-- The method `EscapedPath` of `net/url.URL`: `RawPath` when it is a valid encoding of
`Path`, and the default encoding of `Path` otherwise. -/
def URL.EscapedPath (u : URL) : String :=
  if u.RawPath ≠ "" ∧ validEncoded u.RawPath = true ∧
      unescape u.RawPath = some (utf8Bytes u.Path) then u.RawPath
  else if u.Path = "*" then "*"
  else escape u.Path

/-- The method `String` of `net/url.URL`, which is what the verb `%v` prints for a `*URL`:
the escaped path, preceded by `./` when its first segment holds a colon, followed by `?`
and the raw query when there is one. -/
def URL.String (u : URL) : String :=
  let path := u.EscapedPath
  let segment := String.mk (path.toList.takeWhile fun c => c ≠ '/')
  (if segment.toList.contains ':' then "./" else "") ++ path ++
    (if u.ForceQuery ∨ u.RawQuery ≠ "" then "?" ++ u.RawQuery else "")

/-- The values of a parsed form or header: `map[string][]string`. -/
abbrev Values := List (String × List String)

/-- The part of `http.Request` this package and its handlers read. `formOutcome` is what
`ParseForm` makes of the query string and the body of this request: an error text, or the
parsed values. -/
structure Request where
  Method : String
  URL : URL
  RemoteAddr : String
  Form : Values
  formOutcome : Except String Values

/-- The method `ParseForm` of `http.Request`: the error, and the request with `Form` set. -/
def Request.ParseForm (req : Request) : Option String × Request :=
  match req.formOutcome with
  | .error e => (some e, req)
  | .ok vs => (none, { req with Form := vs })

/-- An `http.ResponseWriter`: the chunks written so far, oldest first. -/
abbrev ResponseWriter := List Bytes

/-- The method `Write` of `http.ResponseWriter`. -/
def ResponseWriter.Write (w : ResponseWriter) (b : Bytes) : ResponseWriter := w ++ [b]

/-- What one call of a handler leaves behind and returns. -/
structure HandlerReturn (σ : Type) where
  app : σ
  w : ResponseWriter
  resp : GoValue
  msg : String
  code : Int

/-- The type `HttpHandler`: a handler acts on the application state `σ` and on the
response writer, and returns `(resp, msg, code)`. -/
abbrev HttpHandler (σ : Type) := σ → ResponseWriter → Request → HandlerReturn σ

/-- The type `HttpRouter`. -/
structure HttpRouter (σ : Type) where
  Location : String
  Handler : HttpHandler σ
  Method : String

/-- The state of the process: the package variable `routerTable`, the lines written
through the standard logger, and the application state. -/
structure World (σ : Type) where
  routerTable : List (HttpRouter σ)
  log : List String
  app : σ

/-- The type `ApiResp`. -/
structure ApiResp where
  Code : Int
  Msg : String
  Body : GoValue

/-- The call `json.Marshal(&apiResp)`: an object with the fields `code`, `msg`, `body` in
declaration order. -/
def Marshal (apiResp : ApiResp) : Except String Bytes :=
  match marshalValue apiResp.Body with
  | .error e => .error e
  | .ok body =>
    .ok (.text (.object [("code", .number (Number.ofInt apiResp.Code)),
      ("msg", .string apiResp.Msg), ("body", body)]))

/-- The function `response`. -/
def response (w : ResponseWriter) (resp : GoValue) (msg : String) (code : Int) :
    ResponseWriter × Option String :=
  let apiResp : ApiResp := { Code := code, Msg := msg, Body := resp }
  match Marshal apiResp with
  | .error err => (w, some err)
  | .ok jsonStr => (w.Write jsonStr, none)

/-- The loop of `rootHandler` over the bindings still to be visited, and the statement
after it. -/
def rootHandler.route {σ : Type} (log : List String) (app : σ) (w : ResponseWriter)
    (req : Request) : List (HttpRouter σ) → List String × σ × ResponseWriter
  | [] =>
    (log, app,
      (response w .emptyStruct
        ("invalid request " ++ req.URL.String ++ " / " ++ req.Method) (-4)).1)
  | r :: rest =>
    if r.Location ≠ req.URL.Path then rootHandler.route log app w req rest
    else if r.Method ≠ req.Method then rootHandler.route log app w req rest
    else
      let h := r.Handler app w req
      match response h.w h.resp h.msg h.code with
      | (w1, some _) => (log ++ ["fail to response " ++ req.URL.String], h.app, w1)
      | (w1, none) => (log, h.app, w1)

/-- The function `rootHandler`. -/
def rootHandler {σ : Type} (g : World σ) (w : ResponseWriter) (req : Request) :
    World σ × ResponseWriter :=
  let log := g.log ++ ["request " ++ req.RemoteAddr ++ " " ++ req.Method ++ " -> " ++
    req.URL.String ++ " [" ++ req.URL.Path ++ "]"]
  match req.ParseForm with
  | (some err, _) =>
    ({ g with log := log ++ ["fail to parse form " ++ req.URL.String] },
      (response w .emptyStruct err (-1)).1)
  | (none, req1) =>
    match rootHandler.route log g.app w req1 g.routerTable with
    | (log1, app1, w1) => ({ g with log := log1, app := app1 }, w1)

/-- The function `RegisterRouter`. -/
def RegisterRouter {σ : Type} (g : World σ) (router : HttpRouter σ) :
    World σ × Option String :=
  if g.routerTable.any
      (fun r => decide (r.Location = router.Location ∧ r.Method = router.Method)) then
    (g, some "router already exist")
  else
    ({ g with
        log := g.log ++ ["add router: " ++ router.Location ++ " " ++ router.Method]
        routerTable := g.routerTable ++ [router] }, none)

/-- The function `ValidateParams`; `params[key]` is the nil slice for an absent key. -/
def ValidateParams (keys : List String) (params : Values) : Option String :=
  match keys with
  | [] => none
  | key :: rest =>
    if ((mapGet key params).getD []).length = 0 ∨ ((mapGet key params).getD []).head? = some ""
    then some "params are not matched or empty"
    else ValidateParams rest params

/-- How a call ends: it returns a value, returns an error, or the goroutine panics. -/
inductive Outcome (α : Type) where
  | ok (a : α)
  | error (err : String)
  | panic (msg : String)

/-- The function `ParseResponseBody`. A type assertion `x.(T)` on a value of another
dynamic type panics. -/
def ParseResponseBody (resBody : Bytes) : Outcome ApiResp :=
  let unmar := Unmarshal resBody
  match mapGet "code" unmar with
  | none => .error "invalid api response"
  | some (.float64 f) =>
    let ok1 := (mapGet "msg" unmar).isSome
    let ok2 := (mapGet "error" unmar).isSome
    if !ok1 && !ok2 then .error "invalid api response" else
    let msgValue := match mapGet "msg" unmar with
      | some v => v
      | none => (mapGet "error" unmar).getD .nil
    match msgValue with
    | .string s =>
      .ok { Code := f.toInt, Msg := s,
            Body := match mapGet "body" unmar with
              | some b => b
              | none => .nil }
    | _ => .panic "interface conversion: interface {} is not string"
  | some _ => .panic "interface conversion: interface {} is not float64"

/-- The world after a sequence of `RegisterRouter` calls, whatever each call returned. -/
def registerAll {σ : Type} (g : World σ) (bs : List (HttpRouter σ)) : World σ :=
  bs.foldl (fun g1 b => (RegisterRouter g1 b).1) g

/-! ## Example bindings

Handlers over an application state that lists, in order, the handlers that ran. -/

/-- A handler that records `name` and returns `(resp, "", 0)`. -/
def namedHandler (name : String) (resp : GoValue) : HttpHandler (List String) :=
  fun app w _ => { app := app ++ [name], w := w, resp := resp, msg := "", code := 0 }

/-- The binding of `GET /ping`. -/
def pingRouter : HttpRouter (List String) :=
  { Location := "/ping", Handler := namedHandler "ping" (.map [("ok", .bool true)]),
    Method := "GET" }

/-- A world with no binding, no log line and no handler run. -/
def emptyWorld : World (List String) := { routerTable := [], log := [], app := [] }

/-- A table in which `GET /ping` is bound twice, after a binding that shares only its
path and a binding that shares only its method. -/
def crowdedWorld : World (List String) :=
  { routerTable :=
      [ { Location := "/ping", Handler := namedHandler "post-ping" .nil, Method := "POST" },
        { Location := "/pong", Handler := namedHandler "get-pong" .nil, Method := "GET" },
        pingRouter,
        { Location := "/ping", Handler := namedHandler "late-ping" .nil, Method := "GET" } ],
    log := [], app := [] }

/-- A request with the given method, path and raw query whose form parses to nothing. -/
def plainRequest (method path query : String) : Request :=
  { Method := method,
    URL := { Path := path, RawPath := "", ForceQuery := false, RawQuery := query },
    RemoteAddr := "127.0.0.1:4000", Form := [], formOutcome := .ok [] }

/-- A map is listed by strictly increasing key: each key is below all later ones. -/
def keysIncreasing {β : Type} : List (String × β) → Bool
  | [] => true
  | (k, _) :: rest => rest.all (fun kv => decide (keyLt k kv.1)) && keysIncreasing rest

mutual
/-- The values in generic form: `nil`, `bool`, `float64`, `string`, `[]interface{}` and
`map[string]interface{}` of such values, the maps listed by increasing key. -/
def GoValue.generic : GoValue → Bool
  | .nil => true
  | .bool _ => true
  | .float64 _ => true
  | .string _ => true
  | .slice xs => GoValue.genericList xs
  | .map kvs => keysIncreasing kvs && GoValue.genericMap kvs
  | .int _ => false
  | .emptyStruct => false
  | .unsupported => false
/-- All elements are in generic form. -/
def GoValue.genericList : List GoValue → Bool
  | [] => true
  | x :: xs => GoValue.generic x && GoValue.genericList xs
/-- All entry values are in generic form. -/
def GoValue.genericMap : List (String × GoValue) → Bool
  | [] => true
  | (_, x) :: kvs => GoValue.generic x && GoValue.genericMap kvs
end

mutual
/-- Nesting depth of a value: slices, maps and structs count one level each. -/
def GoValue.depth : GoValue → Nat
  | .slice xs => GoValue.depthList xs + 1
  | .map kvs => GoValue.depthMap kvs + 1
  | .emptyStruct => 1
  | _ => 0
/-- Largest depth among the elements. -/
def GoValue.depthList : List GoValue → Nat
  | [] => 0
  | x :: xs => max (GoValue.depth x) (GoValue.depthList xs)
/-- Largest depth among the entry values. -/
def GoValue.depthMap : List (String × GoValue) → Nat
  | [] => 0
  | (_, x) :: kvs => max (GoValue.depth x) (GoValue.depthMap kvs)
end

/-- A body in generic form: `{"items": [1.5, "a", null], "ok": true}`. -/
def sampleBody : GoValue :=
  .map [("items", .slice [.float64 ⟨false, 3 * 2 ^ 51, -52⟩, .string "a", .nil]),
    ("ok", .bool true)]

/-- The value `[[...[nil]...]]` with `n` slices around `nil`. -/
def nestedSlice : Nat → GoValue
  | 0 => .nil
  | n + 1 => .slice [nestedSlice n]

/-- The document `[[...[null]...]]` with `n` arrays around `null`. -/
def nestedArray : Nat → Json
  | 0 => .null
  | n + 1 => .array [nestedArray n]

/-- The envelope with the given code, message and body document. -/
def envelope (code : Number) (msg : String) (body : Json) : Bytes :=
  .text (.object [("code", .number code), ("msg", .string msg), ("body", body)])

/-- The bytes `{"error": "boom"}`. -/
def errorOnlyBody : Bytes :=
  .text (.object [("error", .string "boom")])

/-- The bytes `{"code": 0, "error": "boom"}`. -/
def codeErrorBody : Bytes :=
  .text (.object [("code", .number (.decimal false 0 0)), ("error", .string "boom")])

/-- The bytes `{"code": "x", "msg": "m"}`: `code` is present and is a string. -/
def stringCodeBody : Bytes :=
  .text (.object [("code", .string "x"), ("msg", .string "m")])

/-- The bytes `{"code": null, "msg": "m"}`. -/
def nullCodeBody : Bytes :=
  .text (.object [("code", .null), ("msg", .string "m")])

/-- The bytes `{"code": 0, "msg": 7}`: `msg` is present and is a number. -/
def numberMsgBody : Bytes :=
  .text (.object [("code", .number (.decimal false 0 0)), ("msg", .number (.decimal false 7 0))])

/-- The bytes `{"code": 0, "error": ["boom"]}`: `error` is present and is an array. -/
def arrayErrorBody : Bytes :=
  .text (.object [("code", .number (.decimal false 0 0)), ("error", .array [.string "boom"])])

/-- The bytes `{"code": 9007199254740993, "msg": "ok"}`: the code is 2^53 + 1. -/
def bigCodeBody : Bytes :=
  .text (.object [("code", .number (.decimal false 9007199254740993 0)), ("msg", .string "ok")])

/-- The bytes `{"code": 1.5, "msg": "ok"}`. -/
def fractionCodeBody : Bytes :=
  .text (.object [("code", .number (.decimal false 15 (-1))), ("msg", .string "ok")])

/-! ## Text of a document -/

/-- The characters that `json.Marshal` copies into a string literal as they are: printable
ASCII other than the double quote (34), `&` (38), `<` (60), `>` (62) and the
backslash (92). -/
def plainChar (c : Char) : Bool :=
  decide (32 ≤ c.toNat) && decide (c.toNat < 127) &&
    !(decide (c.toNat = 34) || decide (c.toNat = 38) || decide (c.toNat = 60) ||
      decide (c.toNat = 62) || decide (c.toNat = 92))

/-- The string literal of a string of plain characters. -/
def quote (s : String) : String := "\"" ++ s ++ "\""

mutual
/-- The compact text `json.Marshal` writes for a document built from `null`, booleans,
integer literals, strings of plain characters, arrays and objects. For any other document
the result is `none`: its text depends on string escaping and float formatting, which are
not modelled. -/
def renderPlain : Json → Option String
  | .null => some "null"
  | .bool b => some (if b then "true" else "false")
  | .number (.decimal neg mant exp10) =>
    if exp10 = 0 then some ((if neg then "-" else "") ++ Nat.repr mant) else none
  | .number (.float _) => none
  | .string s => if s.toList.all plainChar then some (quote s) else none
  | .array es =>
    match renderPlainList es with
    | some parts => some ("[" ++ ",".intercalate parts ++ "]")
    | none => none
  | .object ms =>
    match renderPlainMembers ms with
    | some parts => some ("\x7b" ++ ",".intercalate parts ++ "\x7d")
    | none => none
/-- The texts of the elements. -/
def renderPlainList : List Json → Option (List String)
  | [] => some []
  | e :: es =>
    match renderPlain e with
    | none => none
    | some t =>
      match renderPlainList es with
      | none => none
      | some ts => some (t :: ts)
/-- The texts `"key":value` of the members. -/
def renderPlainMembers : List (String × Json) → Option (List String)
  | [] => some []
  | (k, v) :: ms =>
    if k.toList.all plainChar then
      match renderPlain v with
      | none => none
      | some t =>
        match renderPlainMembers ms with
        | none => none
        | some ts => some ((quote k ++ ":" ++ t) :: ts)
    else none
end

/-- The text of a chunk, when it is a document that `renderPlain` covers. -/
def Bytes.plainText : Bytes → Option String
  | .text doc => renderPlain doc
  | .invalid _ => none

/-! ## Further examples -/

/-- A request for `GET /ping` whose form does not parse. -/
def brokenRequest : Request :=
  { Method := "GET",
    URL := { Path := "/ping", RawPath := "", ForceQuery := false, RawQuery := "a=%zz" },
    RemoteAddr := "127.0.0.1:4000", Form := [],
    formOutcome := .error "invalid URL escape \"%zz\"" }

/-- A binding of `GET /ping` whose handler first writes a chunk of its own and then
returns a channel as body. -/
def chanRouter : HttpRouter (List String) :=
  { Location := "/ping",
    Handler := fun app w _ =>
      { app := app ++ ["chan"], w := w.Write (.invalid "partial"), resp := .unsupported,
        msg := "", code := 0 },
    Method := "GET" }

/-- A table whose only binding is `chanRouter`. -/
def chanWorld : World (List String) :=
  { routerTable := [chanRouter], log := [], app := [] }

/-- The bytes `{"code": 0, "msg": "m"}`: no `body`. -/
def noBodyBody : Bytes :=
  .text (.object [("code", .number (.decimal false 0 0)), ("msg", .string "m")])

/-- The bytes `{"code": 1e400, "msg": "m"}`: a number beyond the range of `float64`. -/
def hugeCodeBody : Bytes :=
  .text (.object [("code", .number (.decimal false 1 400)), ("msg", .string "m")])

/-- The bytes `{"code": 0, "error": "e", "body": [null, {"k": 1}]}`. -/
def withBodyBody : Bytes :=
  .text (.object [("code", .number (.decimal false 0 0)), ("error", .string "e"),
    ("body", .array [.null, .object [("k", .number (.decimal false 1 0))]])])

/-- The bytes `{"code": 3, "msg": "m", "error": 7, "body": null, "extra": [true]}`: a
string `msg` beside an `error` that is a number. -/
def mixedBody : Bytes :=
  .text (.object [("code", .number (.decimal false 3 0)), ("msg", .string "m"),
    ("error", .number (.decimal false 7 0)), ("body", .null), ("extra", .array [.bool true])])

/-- The last value written under `k` among the members of an object. -/
def lastValue {β : Type} (k : String) : List (String × β) → Option β
  | [] => none
  | (k1, v) :: rest =>
    match lastValue k rest with
    | some v1 => some v1
    | none => if k = k1 then some v else none

/-- No two bindings of the table share both `Location` and `Method`. -/
def uniqueKeys {σ : Type} (table : List (HttpRouter σ)) : Prop :=
  table.Pairwise (fun a b => ¬ (a.Location = b.Location ∧ a.Method = b.Method))

/-! ## Calls of `RegisterRouter` that overlap

`RegisterRouter` takes no lock. A call that runs beside another one is followed through
its two parts: the loop over `routerTable` (lines 82 to 86), and the `append` with the
`return` (lines 87 to 89). -/

/-- Where a call of `RegisterRouter` stands: before its loop, between its loop and its
`append`, or after its `return`. -/
inductive Registration (σ : Type) where
  | entered (router : HttpRouter σ)
  | checked (router : HttpRouter σ)
  | returned (err : Option String)

/-- The next part of a call, run on the state as it is at that moment. -/
def Registration.step {σ : Type} (g : World σ) : Registration σ → World σ × Registration σ
  | .entered router =>
    if g.routerTable.any
        (fun r => decide (r.Location = router.Location ∧ r.Method = router.Method)) then
      (g, .returned (some "router already exist"))
    else (g, .checked router)
  | .checked router =>
    ({ g with
        log := g.log ++ ["add router: " ++ router.Location ++ " " ++ router.Method]
        routerTable := g.routerTable ++ [router] }, .returned none)
  | .returned err => (g, .returned err)

/-- Two calls `a` and `b` run under a schedule: `true` lets `a` take its next part,
`false` lets `b` take its next part. -/
def runTwo {σ : Type} (g : World σ) (a b : Registration σ) :
    List Bool → World σ × Registration σ × Registration σ
  | [] => (g, a, b)
  | true :: rest => runTwo (a.step g).1 (a.step g).2 b rest
  | false :: rest => runTwo (b.step g).1 a (b.step g).2 rest

/-- The error a finished call returned; `none` also for a call that has not returned. -/
def Registration.result {σ : Type} : Registration σ → Option String
  | .returned err => err
  | _ => none

/-- The call has returned. -/
def Registration.done {σ : Type} : Registration σ → Bool
  | .returned _ => true
  | _ => false

/-! ## Registry -/

theorem RegisterRouter_any_iff {σ : Type} (g : World σ) (b : HttpRouter σ) :
    g.routerTable.any
        (fun r => decide (r.Location = b.Location ∧ r.Method = b.Method)) = true ↔
      ∃ r ∈ g.routerTable, r.Location = b.Location ∧ r.Method = b.Method := by
  simp [List.any_eq_true]

theorem RegisterRouter_dup {σ : Type} (g : World σ) (b : HttpRouter σ)
    (hdup : ∃ r ∈ g.routerTable, r.Location = b.Location ∧ r.Method = b.Method) :
    RegisterRouter g b = (g, some "router already exist") := by
  have h := (RegisterRouter_any_iff g b).2 hdup
  unfold RegisterRouter
  rw [if_pos h]

/-- C1: when the registry already holds a binding with the same `Location` and `Method`
as `b`, `RegisterRouter b` returns the error "router already exist" and leaves the whole
state as it was: `routerTable` holds the same bindings in the same order (and no log
line is written). -/
theorem RegisterRouter_duplicate_rejected {σ : Type} (g : World σ) (b : HttpRouter σ)
    (hdup : ∃ r ∈ g.routerTable, r.Location = b.Location ∧ r.Method = b.Method) :
    (RegisterRouter g b).2 = some "router already exist" ∧
      (RegisterRouter g b).1 = g ∧
      (RegisterRouter g b).1.routerTable = g.routerTable ∧
      (RegisterRouter g b).1.routerTable.length = g.routerTable.length := by
  simp [RegisterRouter_dup g b hdup]

theorem RegisterRouter_duplicate_rejected_witness :
    (∃ r ∈ (RegisterRouter emptyWorld pingRouter).1.routerTable,
        r.Location = pingRouter.Location ∧ r.Method = pingRouter.Method) ∧
      (RegisterRouter emptyWorld pingRouter).2 = none ∧
      (RegisterRouter (RegisterRouter emptyWorld pingRouter).1 pingRouter).2 =
        some "router already exist" ∧
      (RegisterRouter (RegisterRouter emptyWorld pingRouter).1 pingRouter).1.routerTable
        = [pingRouter] :=
  have hmem : ∃ r ∈ (RegisterRouter emptyWorld pingRouter).1.routerTable,
      r.Location = pingRouter.Location ∧ r.Method = pingRouter.Method :=
    ⟨pingRouter, by simp [RegisterRouter, emptyWorld], rfl, rfl⟩
  have h := RegisterRouter_duplicate_rejected (RegisterRouter emptyWorld pingRouter).1
    pingRouter hmem
  ⟨hmem, rfl, h.1, by rw [h.2.2.1]; rfl⟩

theorem RegisterRouter_fresh {σ : Type} (g : World σ) (b : HttpRouter σ)
    (hfresh : ∀ r ∈ g.routerTable, ¬ (r.Location = b.Location ∧ r.Method = b.Method)) :
    RegisterRouter g b =
      ({ g with
          log := g.log ++ ["add router: " ++ b.Location ++ " " ++ b.Method]
          routerTable := g.routerTable ++ [b] }, none) := by
  have h : ¬ g.routerTable.any
      (fun r => decide (r.Location = b.Location ∧ r.Method = b.Method)) = true := by
    rw [RegisterRouter_any_iff]
    rintro ⟨r, hr, hkey⟩
    exact hfresh r hr hkey
  unfold RegisterRouter
  rw [if_neg h]

theorem RegisterRouter_error_iff {σ : Type} (g : World σ) (b : HttpRouter σ) :
    (RegisterRouter g b).2 = none ↔
      ∀ r ∈ g.routerTable, ¬ (r.Location = b.Location ∧ r.Method = b.Method) := by
  constructor
  · intro hnone r hr hkey
    rw [RegisterRouter_dup g b ⟨r, hr, hkey⟩] at hnone
    exact Option.noConfusion hnone
  · intro hfresh
    rw [RegisterRouter_fresh g b hfresh]

/-- C10: `RegisterRouter b` returns success exactly when no binding of the registry has
both the `Location` and the `Method` of `b`; on success the new `routerTable` is the old
one with `b` appended at the end, one binding longer; and a binding `b2` that differs
from `b` in `Location` or in `Method`, and is free in the registry, is accepted after
`b`. -/
theorem RegisterRouter_success_iff_appends {σ : Type} (g : World σ) (b : HttpRouter σ) :
    ((RegisterRouter g b).2 = none ↔
        ∀ r ∈ g.routerTable, ¬ (r.Location = b.Location ∧ r.Method = b.Method)) ∧
      ((RegisterRouter g b).2 = none →
        (RegisterRouter g b).1.routerTable = g.routerTable ++ [b] ∧
        (RegisterRouter g b).1.routerTable.length = g.routerTable.length + 1) ∧
      (∀ b2 : HttpRouter σ, (b2.Location ≠ b.Location ∨ b2.Method ≠ b.Method) →
        (∀ r ∈ g.routerTable, ¬ (r.Location = b2.Location ∧ r.Method = b2.Method)) →
        (RegisterRouter (RegisterRouter g b).1 b2).2 = none) := by
  refine ⟨RegisterRouter_error_iff g b, ?_, ?_⟩
  · intro hnone
    have hfresh := (RegisterRouter_error_iff g b).1 hnone
    rw [RegisterRouter_fresh g b hfresh]
    simp
  · intro b2 hdiff hfree
    rw [RegisterRouter_error_iff]
    intro r hr hkey
    by_cases hdup : ∃ r1 ∈ g.routerTable, r1.Location = b.Location ∧ r1.Method = b.Method
    · rw [RegisterRouter_dup g b hdup] at hr
      exact hfree r hr hkey
    · have hfresh : ∀ r1 ∈ g.routerTable,
          ¬ (r1.Location = b.Location ∧ r1.Method = b.Method) :=
        fun r1 h1 hk => hdup ⟨r1, h1, hk⟩
      rw [RegisterRouter_fresh g b hfresh] at hr
      simp only [List.mem_append, List.mem_singleton] at hr
      rcases hr with hr | hr
      · exact hfree r hr hkey
      · subst hr
        rcases hdiff with hd | hd
        · exact hd hkey.1.symm
        · exact hd hkey.2.symm

/-! ## Dispatch -/

theorem exists_first_match {α : Type} (p : α → Prop) (l : List α) (h : ∃ r ∈ l, p r) :
    ∃ pre b post, l = pre ++ b :: post ∧ (∀ r ∈ pre, ¬ p r) ∧ p b := by
  induction l with
  | nil =>
    obtain ⟨r, hr, _⟩ := h
    cases hr
  | cons a l ih =>
    by_cases ha : p a
    · exact ⟨[], a, l, rfl, by simp, ha⟩
    · have h1 : ∃ r ∈ l, p r := by
        obtain ⟨r, hr, hp⟩ := h
        rcases List.mem_cons.1 hr with hr | hr
        · subst hr
          exact absurd hp ha
        · exact ⟨r, hr, hp⟩
      obtain ⟨pre, b, post, hl, hpre, hb⟩ := ih h1
      refine ⟨a :: pre, b, post, by rw [hl]; rfl, ?_, hb⟩
      intro r hr
      rcases List.mem_cons.1 hr with hr | hr
      · subst hr
        exact ha
      · exact hpre r hr

theorem route_skips {σ : Type} (log : List String) (app : σ) (w : ResponseWriter)
    (req : Request) (pre rest : List (HttpRouter σ))
    (hpre : ∀ r ∈ pre, ¬ (r.Location = req.URL.Path ∧ r.Method = req.Method)) :
    rootHandler.route log app w req (pre ++ rest) = rootHandler.route log app w req rest := by
  induction pre with
  | nil => rfl
  | cons a pre ih =>
    have ha := hpre a (List.mem_cons_self a pre)
    have ih1 := ih (fun r hr => hpre r (List.mem_cons_of_mem a hr))
    by_cases hloc : a.Location = req.URL.Path
    · have hmeth : a.Method ≠ req.Method := fun hm => ha ⟨hloc, hm⟩
      simp only [List.cons_append, rootHandler.route, hloc, ne_eq, not_true_eq_false,
        if_false, hmeth, not_false_eq_true, if_true]
      exact ih1
    · simp only [List.cons_append, rootHandler.route, ne_eq, hloc, not_false_eq_true,
        if_true]
      exact ih1

theorem route_first_match {σ : Type} (log : List String) (app : σ) (w : ResponseWriter)
    (req : Request) (pre : List (HttpRouter σ)) (b : HttpRouter σ)
    (post : List (HttpRouter σ))
    (hpre : ∀ r ∈ pre, ¬ (r.Location = req.URL.Path ∧ r.Method = req.Method))
    (hloc : b.Location = req.URL.Path) (hmeth : b.Method = req.Method) :
    (rootHandler.route log app w req (pre ++ b :: post)).2.1 = (b.Handler app w req).app ∧
      (rootHandler.route log app w req (pre ++ b :: post)).2.2 =
        (response (b.Handler app w req).w (b.Handler app w req).resp
          (b.Handler app w req).msg (b.Handler app w req).code).1 := by
  rw [route_skips log app w req pre (b :: post) hpre]
  simp only [rootHandler.route, hloc, hmeth, ne_eq, not_true_eq_false, if_false]
  cases hres : response (b.Handler app w req).w (b.Handler app w req).resp
      (b.Handler app w req).msg (b.Handler app w req).code with
  | mk w1 err =>
    cases err <;> simp

theorem rootHandler_parsed {σ : Type} (g : World σ) (w : ResponseWriter) (req : Request)
    (vs : Values) (hparse : req.formOutcome = .ok vs) :
    (rootHandler g w req).1.app =
        (rootHandler.route
          (g.log ++ ["request " ++ req.RemoteAddr ++ " " ++ req.Method ++ " -> " ++
            req.URL.String ++ " [" ++ req.URL.Path ++ "]"])
          g.app w { req with Form := vs } g.routerTable).2.1 ∧
      (rootHandler g w req).2 =
        (rootHandler.route
          (g.log ++ ["request " ++ req.RemoteAddr ++ " " ++ req.Method ++ " -> " ++
            req.URL.String ++ " [" ++ req.URL.Path ++ "]"])
          g.app w { req with Form := vs } g.routerTable).2.2 ∧
      (rootHandler g w req).1.routerTable = g.routerTable := by
  simp [rootHandler, Request.ParseForm, hparse]

/-- C2: for any registry (duplicates allowed) and any request whose form parses, if some
binding has the `Location` and the `Method` of the request, then the table splits as
`pre ++ b :: post` where no binding of `pre` matches both and `b` does, and `rootHandler`
leaves exactly what one call of the handler of `b` leaves: the application state is the
one that call returns, and the response holds what that call wrote followed by the
envelope of its results. No other handler contributes, whatever `pre` and `post` hold. -/
theorem rootHandler_invokes_first_match {σ : Type} (g : World σ) (w : ResponseWriter)
    (req : Request) (vs : Values) (hparse : req.formOutcome = .ok vs)
    (hex : ∃ r ∈ g.routerTable, r.Location = req.URL.Path ∧ r.Method = req.Method) :
    ∃ pre b post, g.routerTable = pre ++ b :: post ∧
      (∀ r ∈ pre, ¬ (r.Location = req.URL.Path ∧ r.Method = req.Method)) ∧
      b.Location = req.URL.Path ∧ b.Method = req.Method ∧
      (rootHandler g w req).1.app = (b.Handler g.app w { req with Form := vs }).app ∧
      (rootHandler g w req).2 =
        (response (b.Handler g.app w { req with Form := vs }).w
          (b.Handler g.app w { req with Form := vs }).resp
          (b.Handler g.app w { req with Form := vs }).msg
          (b.Handler g.app w { req with Form := vs }).code).1 ∧
      (rootHandler g w req).1.routerTable = g.routerTable := by
  obtain ⟨pre, b, post, hsplit, hpre, hloc, hmeth⟩ :=
    exists_first_match (fun r : HttpRouter σ =>
      r.Location = req.URL.Path ∧ r.Method = req.Method) g.routerTable hex
  obtain ⟨happ, hw, htable⟩ := rootHandler_parsed g w req vs hparse
  have hfirst := route_first_match
    (g.log ++ ["request " ++ req.RemoteAddr ++ " " ++ req.Method ++ " -> " ++
      req.URL.String ++ " [" ++ req.URL.Path ++ "]"])
    g.app w { req with Form := vs } pre b post hpre hloc hmeth
  rw [← hsplit] at hfirst
  exact ⟨pre, b, post, hsplit, hpre, hloc, hmeth, happ.trans hfirst.1, hw.trans hfirst.2,
    htable⟩

theorem rootHandler_invokes_first_match_witness :
    (plainRequest "GET" "/ping" "").formOutcome = .ok [] ∧
      (∃ r ∈ crowdedWorld.routerTable, r.Location = (plainRequest "GET" "/ping" "").URL.Path ∧
        r.Method = (plainRequest "GET" "/ping" "").Method) ∧
      (rootHandler crowdedWorld [] (plainRequest "GET" "/ping" "")).1.app = ["ping"] ∧
      ∃ pre b post, crowdedWorld.routerTable = pre ++ b :: post ∧
        (∀ r ∈ pre, ¬ (r.Location = (plainRequest "GET" "/ping" "").URL.Path ∧
          r.Method = (plainRequest "GET" "/ping" "").Method)) ∧
        b.Location = (plainRequest "GET" "/ping" "").URL.Path ∧
        b.Method = (plainRequest "GET" "/ping" "").Method ∧
        (rootHandler crowdedWorld [] (plainRequest "GET" "/ping" "")).1.app =
          (b.Handler crowdedWorld.app []
            { plainRequest "GET" "/ping" "" with Form := [] }).app ∧
        (rootHandler crowdedWorld [] (plainRequest "GET" "/ping" "")).2 =
          (response
            (b.Handler crowdedWorld.app [] { plainRequest "GET" "/ping" "" with Form := [] }).w
            (b.Handler crowdedWorld.app []
              { plainRequest "GET" "/ping" "" with Form := [] }).resp
            (b.Handler crowdedWorld.app [] { plainRequest "GET" "/ping" "" with Form := [] }).msg
            (b.Handler crowdedWorld.app []
              { plainRequest "GET" "/ping" "" with Form := [] }).code).1 ∧
        (rootHandler crowdedWorld [] (plainRequest "GET" "/ping" "")).1.routerTable =
          crowdedWorld.routerTable :=
  have hex : ∃ r ∈ crowdedWorld.routerTable,
      r.Location = (plainRequest "GET" "/ping" "").URL.Path ∧
        r.Method = (plainRequest "GET" "/ping" "").Method :=
    ⟨pingRouter, by simp [crowdedWorld], rfl, rfl⟩
  ⟨rfl, hex, by decide,
    rootHandler_invokes_first_match crowdedWorld [] (plainRequest "GET" "/ping" "") [] rfl hex⟩

theorem RegisterRouter_table {σ : Type} (g : World σ) (b : HttpRouter σ) :
    ∃ ext, (RegisterRouter g b).1.routerTable = g.routerTable ++ ext := by
  by_cases hdup : ∃ r ∈ g.routerTable, r.Location = b.Location ∧ r.Method = b.Method
  · exact ⟨[], by rw [RegisterRouter_dup g b hdup]; simp⟩
  · have hfresh : ∀ r ∈ g.routerTable,
        ¬ (r.Location = b.Location ∧ r.Method = b.Method) :=
      fun r hr hk => hdup ⟨r, hr, hk⟩
    exact ⟨[b], by rw [RegisterRouter_fresh g b hfresh]⟩

theorem registerAll_table {σ : Type} (bs : List (HttpRouter σ)) (g : World σ) :
    ∃ ext, (registerAll g bs).routerTable = g.routerTable ++ ext := by
  induction bs generalizing g with
  | nil => exact ⟨[], by simp [registerAll]⟩
  | cons b bs ih =>
    obtain ⟨e1, h1⟩ := RegisterRouter_table g b
    obtain ⟨e2, h2⟩ := ih (RegisterRouter g b).1
    refine ⟨e1 ++ e2, ?_⟩
    have hstep : registerAll g (b :: bs) = registerAll (RegisterRouter g b).1 bs := rfl
    rw [hstep, h2, h1, List.append_assoc]

theorem registerAll_append {σ : Type} (g : World σ) (xs ys : List (HttpRouter σ)) :
    registerAll g (xs ++ ys) = registerAll (registerAll g xs) ys := by
  simp [registerAll, List.foldl_append]

/-- C3: in a sequence of `RegisterRouter` calls (from the empty registry or from any
other), let the call for `b` return success after the calls `pre`. Then in the registry
reached after any further calls `post`, accepted or rejected, `b` still sits at the
position where it was appended, and `rootHandler` on a parsed request with the
`Location` and `Method` of `b` leaves exactly what one call of the handler of `b`
leaves: the application state that call returns, and the response that call wrote
followed by the envelope of its results. -/
theorem registered_binding_stays_dispatched {σ : Type} (g0 : World σ)
    (pre : List (HttpRouter σ)) (b : HttpRouter σ) (post : List (HttpRouter σ))
    (hok : (RegisterRouter (registerAll g0 pre) b).2 = none)
    (g : World σ) (hg : g.routerTable = (registerAll g0 (pre ++ b :: post)).routerTable)
    (w : ResponseWriter) (req : Request) (vs : Values) (hparse : req.formOutcome = .ok vs)
    (hpath : req.URL.Path = b.Location) (hmeth : req.Method = b.Method) :
    g.routerTable[(registerAll g0 pre).routerTable.length]? = some b ∧
      (rootHandler g w req).1.app = (b.Handler g.app w { req with Form := vs }).app ∧
      (rootHandler g w req).2 =
        (response (b.Handler g.app w { req with Form := vs }).w
          (b.Handler g.app w { req with Form := vs }).resp
          (b.Handler g.app w { req with Form := vs }).msg
          (b.Handler g.app w { req with Form := vs }).code).1 ∧
      (rootHandler g w req).1.routerTable = g.routerTable := by
  have hfresh := (RegisterRouter_error_iff (registerAll g0 pre) b).1 hok
  have hstep : registerAll g0 (pre ++ b :: post) =
      registerAll (RegisterRouter (registerAll g0 pre) b).1 post := by
    rw [registerAll_append]
    rfl
  obtain ⟨ext, hext⟩ := registerAll_table post (RegisterRouter (registerAll g0 pre) b).1
  have htable : g.routerTable = (registerAll g0 pre).routerTable ++ b :: ext := by
    rw [hg, hstep, hext, RegisterRouter_fresh (registerAll g0 pre) b hfresh]
    simp
  have hpre : ∀ r ∈ (registerAll g0 pre).routerTable,
      ¬ (r.Location = req.URL.Path ∧ r.Method = req.Method) := by
    intro r hr hkey
    exact hfresh r hr ⟨hkey.1.trans hpath, hkey.2.trans hmeth⟩
  obtain ⟨happ, hw, hsame⟩ := rootHandler_parsed g w req vs hparse
  have hfirst := route_first_match
    (g.log ++ ["request " ++ req.RemoteAddr ++ " " ++ req.Method ++ " -> " ++
      req.URL.String ++ " [" ++ req.URL.Path ++ "]"])
    g.app w { req with Form := vs } (registerAll g0 pre).routerTable b ext hpre
    hpath.symm hmeth.symm
  rw [← htable] at hfirst
  refine ⟨?_, happ.trans hfirst.1, hw.trans hfirst.2, hsame⟩
  rw [htable, List.getElem?_append_right (le_refl _)]
  simp

theorem registered_binding_stays_dispatched_witness :
    (RegisterRouter (registerAll emptyWorld (crowdedWorld.routerTable.take 2)) pingRouter).2
        = none ∧
      (registerAll emptyWorld crowdedWorld.routerTable).routerTable.length = 3 ∧
      (rootHandler (registerAll emptyWorld crowdedWorld.routerTable) []
        (plainRequest "GET" "/ping" "")).1.app = ["ping"] ∧
      (registerAll emptyWorld crowdedWorld.routerTable).routerTable[
          (registerAll emptyWorld (crowdedWorld.routerTable.take 2)).routerTable.length]?
        = some pingRouter :=
  have hok : (RegisterRouter (registerAll emptyWorld (crowdedWorld.routerTable.take 2))
      pingRouter).2 = none := by decide
  have h := registered_binding_stays_dispatched emptyWorld (crowdedWorld.routerTable.take 2)
    pingRouter (crowdedWorld.routerTable.drop 3) hok
    (registerAll emptyWorld crowdedWorld.routerTable) rfl []
    (plainRequest "GET" "/ping" "") [] rfl rfl rfl
  ⟨hok, by decide, h.2.1, h.1⟩

/-- The test `ValidateParams` applies to one key. -/
theorem key_missing_iff (key : String) (params : Values) :
    (((mapGet key params).getD []).length = 0 ∨
        ((mapGet key params).getD []).head? = some "") ↔
      (mapGet key params = none ∨ mapGet key params = some [] ∨
        ∃ rest, mapGet key params = some ("" :: rest)) := by
  cases h : mapGet key params with
  | none => simp
  | some vals =>
    cases vals with
    | nil => simp
    | cons v rest => simp

/-- C6: `ValidateParams` returns an error exactly when some required key is absent from
the map, maps to an empty sequence of values, or has the empty string as its first value;
the error is always "params are not matched or empty"; the empty key list succeeds;
`ValidateParams(["a","b"], {"a": ["x"]})` fails and `ValidateParams(["a"], {"a": ["x"]})`
succeeds. -/
theorem ValidateParams_error_iff (keys : List String) (params : Values) :
    (ValidateParams keys params ≠ none ↔
        ∃ key ∈ keys, mapGet key params = none ∨ mapGet key params = some [] ∨
          ∃ rest, mapGet key params = some ("" :: rest)) ∧
      (ValidateParams keys params = none ∨
        ValidateParams keys params = some "params are not matched or empty") ∧
      ValidateParams [] params = none ∧
      ValidateParams ["a", "b"] [("a", ["x"])] = some "params are not matched or empty" ∧
      ValidateParams ["a"] [("a", ["x"])] = none := by
  refine ⟨?_, ?_, rfl, by decide, by decide⟩
  · induction keys with
    | nil => simp [ValidateParams]
    | cons key rest ih =>
      by_cases hkey : ((mapGet key params).getD []).length = 0 ∨
          ((mapGet key params).getD []).head? = some ""
      · have hval : ValidateParams (key :: rest) params =
            some "params are not matched or empty" := by
          rw [ValidateParams, if_pos hkey]
        rw [hval]
        constructor
        · intro _
          exact ⟨key, List.mem_cons_self key rest, (key_missing_iff key params).1 hkey⟩
        · intro _ h
          exact Option.noConfusion h
      · have hval : ValidateParams (key :: rest) params = ValidateParams rest params := by
          rw [ValidateParams, if_neg hkey]
        rw [hval, ih]
        constructor
        · rintro ⟨k, hk, hmiss⟩
          exact ⟨k, List.mem_cons_of_mem key hk, hmiss⟩
        · rintro ⟨k, hk, hmiss⟩
          rcases List.mem_cons.1 hk with hk | hk
          · subst hk
            exact absurd ((key_missing_iff k params).2 hmiss) hkey
          · exact ⟨k, hk, hmiss⟩
  · induction keys with
    | nil => exact Or.inl rfl
    | cons key rest ih =>
      by_cases hkey : ((mapGet key params).getD []).length = 0 ∨
          ((mapGet key params).getD []).head? = some ""
      · right
        rw [ValidateParams, if_pos hkey]
      · rw [ValidateParams, if_neg hkey]
        exact ih

/-! ## Number conversion -/

theorem log2Fuel_spec : ∀ (fuel n : Nat), n ≤ fuel → 1 ≤ n →
    2 ^ log2Fuel fuel n ≤ n ∧ n < 2 ^ (log2Fuel fuel n + 1)
  | 0, n, h1, h2 => by omega
  | fuel + 1, n, h1, h2 => by
    by_cases hn : n < 2
    · have : n = 1 := by omega
      subst this
      simp [log2Fuel]
    · have ih := log2Fuel_spec fuel (n / 2) (by omega) (by omega)
      simp only [log2Fuel, hn, if_false]
      have e1 : 2 ^ (log2Fuel fuel (n / 2) + 1) = 2 * 2 ^ log2Fuel fuel (n / 2) := by
        rw [pow_succ]; ring
      have e2 : 2 ^ (log2Fuel fuel (n / 2) + 1 + 1) = 2 * 2 ^ (log2Fuel fuel (n / 2) + 1) := by
        rw [pow_succ]; ring
      rw [e2, e1]
      rw [e1] at ih
      omega

theorem log2_spec (n : Nat) (h : 1 ≤ n) : 2 ^ log2 n ≤ n ∧ n < 2 ^ (log2 n + 1) :=
  log2Fuel_spec n n (le_refl n) h

theorem log2_le_of_lt_pow (n k : Nat) (h1 : 1 ≤ n) (h : n < 2 ^ (k + 1)) : log2 n ≤ k := by
  by_contra hc
  have h2 := (log2_spec n h1).1
  have : 2 ^ (k + 1) ≤ 2 ^ log2 n := Nat.pow_le_pow_right (by norm_num) (by omega)
  omega


theorem floorLog2_int (a : Nat) (h1 : 1 ≤ a) : floorLog2 a 1 = (log2 a : Int) := by
  have hspec := (log2_spec a h1).1
  have h0 : log2 1 = 0 := rfl
  unfold floorLog2
  simp only [h0, Nat.cast_zero, sub_zero, Int.toNat_ofNat, Nat.shiftLeft_eq, one_mul]
  have hneg : (-(log2 a : Int)).toNat = 0 := by omega
  rw [hneg, pow_zero, mul_one, if_pos hspec]

theorem shift_lt_pow53 (a : Nat) (h1 : 1 ≤ a) (h2 : a < 2 ^ 53) :
    a * 2 ^ (52 - log2 a) < 2 ^ 53 := by
  have hL : log2 a ≤ 52 := log2_le_of_lt_pow a 52 h1 h2
  have hlt := (log2_spec a h1).2
  have hpow : 2 ^ (log2 a + 1) * 2 ^ (52 - log2 a) = 2 ^ 53 := by
    rw [← pow_add]
    congr 1
    omega
  calc a * 2 ^ (52 - log2 a) < 2 ^ (log2 a + 1) * 2 ^ (52 - log2 a) :=
        Nat.mul_lt_mul_of_pos_right hlt (by positivity)
    _ = 2 ^ 53 := hpow

theorem roundToFloat64_int (neg : Bool) (a : Nat) (h1 : 1 ≤ a) (h2 : a < 2 ^ 53) :
    roundToFloat64 neg a 1 = some ⟨neg, a * 2 ^ (52 - log2 a), (log2 a : Int) - 52⟩ := by
  have hL : log2 a ≤ 52 := log2_le_of_lt_pow a 52 h1 h2
  have hm := shift_lt_pow53 a h1 h2
  have ha : a ≠ 0 := by omega
  have hs : max ((log2 a : Int) - 52) (-1074) = (log2 a : Int) - 52 := by omega
  have hs1 : (-((log2 a : Int) - 52)).toNat = 52 - log2 a := by omega
  have hs2 : ((log2 a : Int) - 52).toNat = 0 := by omega
  have hne : a * 2 ^ (52 - log2 a) ≠ 2 ^ 53 := by omega
  have hle : ¬ (971 < (log2 a : Int) - 52) := by omega
  unfold roundToFloat64
  simp only [ha, if_false, floorLog2_int a h1, hs, hs1, hs2, Nat.shiftLeft_eq, pow_zero,
    mul_one, Nat.div_one, Nat.mod_one, mul_zero, Nat.lt_one_iff, if_true, hne, hle]

theorem toInt_of_int (neg : Bool) (a : Nat) (h1 : 1 ≤ a) (h2 : a < 2 ^ 53) :
    (Float64.mk neg (a * 2 ^ (52 - log2 a)) ((log2 a : Int) - 52)).toInt =
      if neg then -(a : Int) else (a : Int) := by
  have hL : log2 a ≤ 52 := log2_le_of_lt_pow a 52 h1 h2
  have hval : (if (0 : Int) ≤ (log2 a : Int) - 52
      then (a * 2 ^ (52 - log2 a)) <<< ((log2 a : Int) - 52).toNat
      else (a * 2 ^ (52 - log2 a)) >>> (-((log2 a : Int) - 52)).toNat) = a := by
    have hs1 : (-((log2 a : Int) - 52)).toNat = 52 - log2 a := by omega
    by_cases h52 : log2 a = 52
    · have hpos : (0 : Int) ≤ (log2 a : Int) - 52 := by omega
      rw [if_pos hpos, h52]
      simp
    · have hneg : ¬ (0 : Int) ≤ (log2 a : Int) - 52 := by omega
      rw [if_neg hneg, hs1, Nat.shiftRight_eq_div_pow]
      exact Nat.mul_div_cancel a (by positivity)
  unfold Float64.toInt
  simp only [hval]
  have hr : (a : Int) < 2 ^ 63 := by
    have : a < 2 ^ 63 := lt_trans h2 (by norm_num)
    exact_mod_cast this
  cases neg
  · simp only [Bool.false_eq_true, if_false]
    rw [if_pos]
    constructor <;> omega
  · simp only [if_true]
    rw [if_pos]
    constructor <;> omega

theorem parseFloat_ofInt (n : Int) (h : n.natAbs ≤ 2 ^ 53) :
    ∃ f, (Number.ofInt n).parseFloat = some f ∧ f.toInt = n := by
  have hparse : (Number.ofInt n).parseFloat = roundToFloat64 (decide (n < 0)) n.natAbs 1 := by
    simp [Number.ofInt, Number.parseFloat]
  rw [hparse]
  by_cases h0 : n.natAbs = 0
  · have hn : n = 0 := Int.natAbs_eq_zero.1 h0
    subst hn
    exact ⟨⟨false, 0, -1074⟩, by decide, by decide⟩
  by_cases h53 : n.natAbs = 2 ^ 53
  · rcases Int.natAbs_eq n with hn | hn
    · rw [h53] at hn
      rw [hn]
      exact ⟨⟨false, 2 ^ 52, 1⟩, by decide, by decide⟩
    · rw [h53] at hn
      rw [hn]
      exact ⟨⟨true, 2 ^ 52, 1⟩, by decide, by decide⟩
  · have h1 : 1 ≤ n.natAbs := by omega
    have h2 : n.natAbs < 2 ^ 53 := by omega
    refine ⟨_, roundToFloat64_int _ n.natAbs h1 h2, ?_⟩
    rw [toInt_of_int _ n.natAbs h1 h2]
    by_cases hneg : n < 0
    · simp only [hneg, decide_True, if_true]
      omega
    · simp only [hneg, decide_False, Bool.false_eq_true, if_false]
      omega

/-! ## Decoding an envelope -/

theorem ParseResponseBody_of_code (resBody : Bytes) (f : Float64)
    (hcode : mapGet "code" (Unmarshal resBody) = some (.float64 f)) :
    ParseResponseBody resBody =
      if (mapGet "msg" (Unmarshal resBody)).isSome = false ∧
          (mapGet "error" (Unmarshal resBody)).isSome = false then
        .error "invalid api response"
      else
        match (match mapGet "msg" (Unmarshal resBody) with
          | some v => v
          | none => (mapGet "error" (Unmarshal resBody)).getD .nil) with
        | .string s =>
          .ok { Code := f.toInt, Msg := s, Body := (mapGet "body" (Unmarshal resBody)).getD .nil }
        | _ => .panic "interface conversion: interface {} is not string" := by
  unfold ParseResponseBody
  simp only [hcode]
  by_cases h : (mapGet "msg" (Unmarshal resBody)).isSome = false ∧
      (mapGet "error" (Unmarshal resBody)).isSome = false
  · simp [h.1, h.2]
  · rw [if_neg h]
    have hb : (!(mapGet "msg" (Unmarshal resBody)).isSome &&
        !(mapGet "error" (Unmarshal resBody)).isSome) = false := by
      cases h1 : (mapGet "msg" (Unmarshal resBody)).isSome <;>
        cases h2 : (mapGet "error" (Unmarshal resBody)).isSome <;> simp_all
    simp only [hb, Bool.false_eq_true, if_false]
    have hbody : (match mapGet "body" (Unmarshal resBody) with
        | some b => b
        | none => GoValue.nil) = (mapGet "body" (Unmarshal resBody)).getD .nil := by
      cases mapGet "body" (Unmarshal resBody) <;> rfl
    rw [hbody]

/-- C7: when the structure `json.Unmarshal` leaves in `unmar` has no `code` key,
`ParseResponseBody` returns the error "invalid api response" and no envelope, whatever
other keys are present. -/
theorem ParseResponseBody_without_code (resBody : Bytes)
    (hcode : mapGet "code" (Unmarshal resBody) = none) :
    ParseResponseBody resBody = .error "invalid api response" := by
  unfold ParseResponseBody
  simp only [hcode]

theorem ParseResponseBody_without_code_witness :
    mapGet "code" (Unmarshal errorOnlyBody) = none ∧
      mapGet "error" (Unmarshal errorOnlyBody) = some (.string "boom") ∧
      ParseResponseBody errorOnlyBody = .error "invalid api response" :=
  ⟨rfl, rfl, ParseResponseBody_without_code errorOnlyBody rfl⟩

/-- With an integer `code` of 2^53 + 1 the decoded `Code` is 2^53, and with a `code` of
1.5 the decoded `Code` is 1: `Code` is not always the value of `code`. -/
theorem ParseResponseBody_code_not_exact :
    ParseResponseBody bigCodeBody = .ok ⟨9007199254740992, "ok", .nil⟩ ∧
      (9007199254740992 : Int) ≠ 9007199254740993 ∧
      ParseResponseBody fractionCodeBody = .ok ⟨1, "ok", .nil⟩ :=
  ⟨rfl, by decide, rfl⟩

/-- C8 (amended): when `unmar` holds a number under `code`: if neither `msg` nor `error`
is present `ParseResponseBody` returns an error; if `msg` is present and a string, the
call succeeds and `Msg` is that string (whatever `error` holds); if `msg` is absent and
`error` is a string, the call succeeds and `Msg` is that string. In both success cases
`Code` is the number converted to `int` as Go converts a `float64`, and it equals the
value of `code` whenever that value is an integer of magnitude at most 2^53. -/
theorem ParseResponseBody_message (resBody : Bytes) (f : Float64)
    (hcode : mapGet "code" (Unmarshal resBody) = some (.float64 f)) :
    (mapGet "msg" (Unmarshal resBody) = none → mapGet "error" (Unmarshal resBody) = none →
        ParseResponseBody resBody = .error "invalid api response") ∧
      (∀ s, mapGet "msg" (Unmarshal resBody) = some (.string s) →
        ParseResponseBody resBody =
          .ok ⟨f.toInt, s, (mapGet "body" (Unmarshal resBody)).getD .nil⟩) ∧
      (∀ s, mapGet "msg" (Unmarshal resBody) = none →
        mapGet "error" (Unmarshal resBody) = some (.string s) →
        ParseResponseBody resBody =
          .ok ⟨f.toInt, s, (mapGet "body" (Unmarshal resBody)).getD .nil⟩) ∧
      (∀ n : Int, n.natAbs ≤ 2 ^ 53 → (Number.ofInt n).parseFloat = some f →
        f.toInt = n) := by
  have h := ParseResponseBody_of_code resBody f hcode
  refine ⟨?_, ?_, ?_, ?_⟩
  · intro hmsg herr
    rw [h, hmsg, herr]
    simp
  · intro s hmsg
    rw [h, hmsg]
    simp
  · intro s hmsg herr
    rw [h, hmsg, herr]
    simp
  · intro n hn hf
    obtain ⟨f1, hf1, hval⟩ := parseFloat_ofInt n hn
    rw [hf] at hf1
    rw [Option.some.inj hf1]
    exact hval

theorem ParseResponseBody_message_witness :
    mapGet "code" (Unmarshal codeErrorBody) = some (.float64 ⟨false, 0, -1074⟩) ∧
      mapGet "msg" (Unmarshal codeErrorBody) = none ∧
      mapGet "error" (Unmarshal codeErrorBody) = some (.string "boom") ∧
      ParseResponseBody codeErrorBody = .ok ⟨0, "boom", .nil⟩ :=
  ⟨rfl, rfl, rfl,
    (ParseResponseBody_message codeErrorBody ⟨false, 0, -1074⟩ rfl).2.2.1 "boom" rfl rfl⟩

/-- C9: on `{"code": "x", "msg": "m"}` and on `{"code": null, "msg": "m"}` the type
assertion `unmar["code"].(float64)` panics, and on `{"code": 0, "msg": 7}` and
`{"code": 0, "error": ["boom"]}` the assertion to `string` panics: no error value is
returned to the caller. -/
theorem ParseResponseBody_panics_on_wrong_type :
    ParseResponseBody stringCodeBody =
        .panic "interface conversion: interface {} is not float64" ∧
      ParseResponseBody nullCodeBody =
        .panic "interface conversion: interface {} is not float64" ∧
      ParseResponseBody numberMsgBody =
        .panic "interface conversion: interface {} is not string" ∧
      ParseResponseBody arrayErrorBody =
        .panic "interface conversion: interface {} is not string" :=
  ⟨rfl, rfl, rfl, rfl⟩

/-! ## Round trip through the envelope -/

theorem keyLt_asymm (a b : String) (h : keyLt a b) : ¬ keyLt b a := by
  unfold keyLt at h ⊢
  exact lt_asymm h

theorem keyLt_ne (a b : String) (h : keyLt a b) : b ≠ a := by
  intro hab
  subst hab
  exact keyLt_asymm b b h h

theorem keysIncreasing_iff {β : Type} (l : List (String × β)) :
    keysIncreasing l = true ↔ l.Pairwise (fun a b => keyLt a.1 b.1) := by
  induction l with
  | nil => simp [keysIncreasing]
  | cons kv rest ih =>
    obtain ⟨k, v⟩ := kv
    simp [keysIncreasing, ih]

theorem mapSet_append {β : Type} (k : String) (v : β) (m : List (String × β))
    (h : ∀ kv ∈ m, keyLt kv.1 k) : mapSet k v m = m ++ [(k, v)] := by
  induction m with
  | nil => rfl
  | cons kv rest ih =>
    obtain ⟨k1, v1⟩ := kv
    have hk := h (k1, v1) (List.mem_cons_self _ _)
    have ih1 := ih (fun kv hkv => h kv (List.mem_cons_of_mem _ hkv))
    simp only [mapSet, keyLt_ne k1 k hk, keyLt_asymm k1 k hk, if_false, ih1, List.cons_append]

theorem foldl_mapSet {β : Type} (ms : List (String × β)) :
    ∀ acc : List (String × β), (∀ a ∈ acc, ∀ b ∈ ms, keyLt a.1 b.1) →
      ms.Pairwise (fun a b => keyLt a.1 b.1) →
      ms.foldl (fun m kv => mapSet kv.1 kv.2 m) acc = acc ++ ms := by
  induction ms with
  | nil =>
    intro acc _ _
    simp
  | cons kv ms ih =>
    intro acc hacc hpw
    rw [List.pairwise_cons] at hpw
    have hset : mapSet kv.1 kv.2 acc = acc ++ [kv] :=
      mapSet_append kv.1 kv.2 acc (fun a ha => hacc a ha kv (List.mem_cons_self _ _))
    rw [List.foldl_cons, hset, ih (acc ++ [kv]) ?_ hpw.2]
    · simp
    · intro a ha b hb
      rcases List.mem_append.1 ha with ha | ha
      · exact hacc a ha b (List.mem_cons_of_mem _ hb)
      · rw [List.mem_singleton.1 ha]
        exact hpw.1 b hb

theorem mapOfMembers_increasing {β : Type} (ms : List (String × β))
    (h : keysIncreasing ms = true) : mapOfMembers ms = ms := by
  have hpw := (keysIncreasing_iff ms).1 h
  have hfold := foldl_mapSet ms [] (fun a ha => absurd ha (List.not_mem_nil a)) hpw
  simpa [mapOfMembers] using hfold

theorem sortMembers_increasing (ms : List (String × Json))
    (h : ms.Pairwise (fun a b => keyLt a.1 b.1)) : sortMembers ms = ms := by
  unfold sortMembers
  apply List.Sorted.insertionSort_eq
  have himp : ∀ {a b : String × Json}, keyLt a.1 b.1 → ¬ keyLt b.1 a.1 :=
    fun {a b} hab => keyLt_asymm a.1 b.1 hab
  exact List.Pairwise.imp himp h

theorem pairwise_keys_transfer {β γ : Type} (l1 : List (String × β)) (l2 : List (String × γ))
    (hkeys : l1.map Prod.fst = l2.map Prod.fst)
    (h : l2.Pairwise (fun a b => keyLt a.1 b.1)) :
    l1.Pairwise (fun a b => keyLt a.1 b.1) := by
  have h2 : (l2.map Prod.fst).Pairwise keyLt := List.pairwise_map.2 h
  rw [← hkeys] at h2
  exact List.pairwise_map.1 h2

mutual
theorem decode_marshalValue : ∀ v : GoValue, v.generic = true →
    ∃ j, marshalValue v = .ok j ∧ decodeValue j = v ∧ j.depth = v.depth
  | .nil, _ => ⟨.null, rfl, rfl, rfl⟩
  | .bool b, _ => ⟨.bool b, rfl, rfl, rfl⟩
  | .float64 f, _ => ⟨.number (.float f), rfl, rfl, rfl⟩
  | .string s, _ => ⟨.string s, rfl, rfl, rfl⟩
  | .slice xs, h => by
    have hxs : GoValue.genericList xs = true := by simpa [GoValue.generic] using h
    obtain ⟨js, hjs, hdec, hdepth⟩ := decode_marshalSlice xs hxs
    refine ⟨.array js, ?_, ?_, ?_⟩
    · simp [marshalValue, hjs]
    · simp [decodeValue, hdec]
    · simp [Json.depth, GoValue.depth, hdepth]
  | .map kvs, h => by
    have hboth : keysIncreasing kvs = true ∧ GoValue.genericMap kvs = true := by
      simpa [GoValue.generic] using h
    obtain ⟨ms, hms, hdec, hdepth, hkeys⟩ := decode_marshalMap kvs hboth.2
    have hsorted : sortMembers ms = ms :=
      sortMembers_increasing ms
        (pairwise_keys_transfer ms kvs hkeys ((keysIncreasing_iff kvs).1 hboth.1))
    refine ⟨.object ms, ?_, ?_, ?_⟩
    · simp [marshalValue, hms, hsorted]
    · simp [decodeValue, hdec, mapOfMembers_increasing kvs hboth.1]
    · simp [Json.depth, GoValue.depth, hdepth]
  | .int _, h => by simp [GoValue.generic] at h
  | .emptyStruct, h => by simp [GoValue.generic] at h
  | .unsupported, h => by simp [GoValue.generic] at h
theorem decode_marshalSlice : ∀ xs : List GoValue, GoValue.genericList xs = true →
    ∃ js, marshalSlice xs = .ok js ∧ decodeArray js = xs ∧
      Json.depthList js = GoValue.depthList xs
  | [], _ => ⟨[], rfl, rfl, rfl⟩
  | x :: xs, h => by
    have hboth : x.generic = true ∧ GoValue.genericList xs = true := by
      simpa [GoValue.genericList] using h
    obtain ⟨j, hj, hdec, hdepth⟩ := decode_marshalValue x hboth.1
    obtain ⟨js, hjs, hdecs, hdepths⟩ := decode_marshalSlice xs hboth.2
    refine ⟨j :: js, ?_, ?_, ?_⟩
    · simp [marshalSlice, hj, hjs]
    · simp [decodeArray, hdec, hdecs]
    · simp [Json.depthList, GoValue.depthList, hdepth, hdepths]
theorem decode_marshalMap : ∀ kvs : List (String × GoValue), GoValue.genericMap kvs = true →
    ∃ ms, marshalMap kvs = .ok ms ∧ decodeMembers ms = kvs ∧
      Json.depthMembers ms = GoValue.depthMap kvs ∧ ms.map Prod.fst = kvs.map Prod.fst
  | [], _ => ⟨[], rfl, rfl, rfl, rfl⟩
  | (k, x) :: kvs, h => by
    have hboth : x.generic = true ∧ GoValue.genericMap kvs = true := by
      simpa [GoValue.genericMap] using h
    obtain ⟨j, hj, hdec, hdepth⟩ := decode_marshalValue x hboth.1
    obtain ⟨ms, hms, hdecs, hdepths, hkeys⟩ := decode_marshalMap kvs hboth.2
    refine ⟨(k, j) :: ms, ?_, ?_, ?_, ?_⟩
    · simp [marshalMap, hj, hms]
    · simp [decodeMembers, hdec, hdecs]
    · simp [Json.depthMembers, GoValue.depthMap, hdepth, hdepths]
    · simp [hkeys]
end

theorem envelope_fields (c m b : GoValue) :
    mapOfMembers [("code", c), ("msg", m), ("body", b)] =
      [("body", b), ("code", c), ("msg", m)] := by
  have h1 : ("msg" : String) ≠ "code" := by decide
  have h2 : ¬ keyLt "msg" "code" := by decide
  have h3 : ("body" : String) ≠ "code" := by decide
  have h4 : keyLt "body" "code" := by decide
  simp [mapOfMembers, mapSet, h1, h2, h3, h4]

theorem Unmarshal_envelope (code : Number) (msg : String) (body : Json)
    (hdepth : body.depth < maxNestingDepth) :
    Unmarshal (envelope code msg body) =
      [("body", decodeValue body), ("code", decodeValue (.number code)),
        ("msg", .string msg)] := by
  have hd : ¬ maxNestingDepth < body.depth + 1 := by omega
  simp [Unmarshal, envelope, Json.depth, Json.depthMembers, hd, decodeMembers,
    envelope_fields, decodeValue]

theorem marshal_nestedSlice (n : Nat) :
    marshalValue (nestedSlice n) = .ok (nestedArray n) ∧ (nestedArray n).depth = n := by
  induction n with
  | zero => exact ⟨rfl, rfl⟩
  | succ n ih =>
    constructor
    · simp [nestedSlice, nestedArray, marshalValue, marshalSlice, ih.1]
    · simp [nestedArray, Json.depth, Json.depthList, ih.2]

theorem Unmarshal_envelope_deep (code : Number) (msg : String) (body : Json)
    (hdepth : maxNestingDepth ≤ body.depth) :
    Unmarshal (envelope code msg body) = [] := by
  have hd : maxNestingDepth < body.depth + 1 := by omega
  simp [Unmarshal, envelope, Json.depth, Json.depthMembers, hd]

theorem ParseResponseBody_deep (code : Number) (msg : String) (n : Nat)
    (hn : maxNestingDepth ≤ n) :
    ParseResponseBody (envelope code msg (nestedArray n)) = .error "invalid api response" := by
  have hdeep := Unmarshal_envelope_deep code msg (nestedArray n)
    (by rw [(marshal_nestedSlice n).2]; exact hn)
  unfold ParseResponseBody
  rw [hdeep]
  rfl

theorem response_ok (w : ResponseWriter) (resp : GoValue) (msg : String) (code : Int)
    (j : Json) (hj : marshalValue resp = .ok j) :
    response w resp msg code = (w ++ [envelope (Number.ofInt code) msg j], none) := by
  simp [response, Marshal, hj, ResponseWriter.Write, envelope]

/-- Three round trips that do not return what went in: the code 2^53 + 1 comes back as
2^53; the body `int` 7 comes back as the `float64` 7; and the body of 10000 nested
slices is written, but the bytes are rejected on the way back. -/
theorem response_ParseResponseBody_not_identity :
    (response [] .nil "" 9007199254740993 =
        ([envelope (.decimal false 9007199254740993 0) "" .null], none) ∧
      ParseResponseBody (envelope (.decimal false 9007199254740993 0) "" .null) =
        .ok ⟨9007199254740992, "", .nil⟩ ∧
      (9007199254740992 : Int) ≠ 9007199254740993) ∧
    (response [] (.int 7) "" 0 =
        ([envelope (.decimal false 0 0) "" (.number (.decimal false 7 0))], none) ∧
      ParseResponseBody (envelope (.decimal false 0 0) "" (.number (.decimal false 7 0))) =
        .ok ⟨0, "", .float64 ⟨false, 7 * 2 ^ 50, -50⟩⟩ ∧
      GoValue.float64 ⟨false, 7 * 2 ^ 50, -50⟩ ≠ GoValue.int 7) ∧
    (response [] (nestedSlice 10000) "" 0 =
        ([envelope (.decimal false 0 0) "" (nestedArray 10000)], none) ∧
      ParseResponseBody (envelope (.decimal false 0 0) "" (nestedArray 10000)) =
        .error "invalid api response") := by
  refine ⟨⟨rfl, rfl, by decide⟩, ⟨rfl, rfl, fun h => GoValue.noConfusion h⟩, ?_, ?_⟩
  · exact response_ok [] (nestedSlice 10000) "" 0 _ (marshal_nestedSlice 10000).1
  · exact ParseResponseBody_deep (.decimal false 0 0) "" 10000 (Nat.le_refl 10000)

/-- C5 (amended): for every code of magnitude at most 2^53, every string `msg` and every
body in generic form (`nil`, `bool`, `float64`, `string`, and slices and string-keyed
maps of these) nested fewer than 10000 levels deep, `response` writes one chunk and
returns no error, and `ParseResponseBody` on that chunk returns no error and the
envelope with `Code = code`, `Msg = msg` and `Body = body`. -/
theorem ParseResponseBody_response_roundtrip (w : ResponseWriter) (code : Int)
    (msg : String) (body : GoValue) (hcode : code.natAbs ≤ 2 ^ 53)
    (hbody : body.generic = true) (hdepth : body.depth < maxNestingDepth) :
    ∃ jsonStr, response w body msg code = (w ++ [jsonStr], none) ∧
      ParseResponseBody jsonStr = .ok ⟨code, msg, body⟩ := by
  obtain ⟨j, hj, hdec, hjd⟩ := decode_marshalValue body hbody
  obtain ⟨f, hf, hval⟩ := parseFloat_ofInt code hcode
  refine ⟨envelope (Number.ofInt code) msg j, response_ok w body msg code j hj, ?_⟩
  have hu := Unmarshal_envelope (Number.ofInt code) msg j (by rw [hjd]; exact hdepth)
  have hc : decodeValue (.number (Number.ofInt code)) = .float64 f := by
    simp [decodeValue, hf]
  rw [hc, hdec] at hu
  have hget : mapGet "code" (Unmarshal (envelope (Number.ofInt code) msg j)) =
      some (.float64 f) := by
    rw [hu]
    rfl
  rw [ParseResponseBody_of_code _ f hget, hu]
  have hmsg : mapGet "msg" [("body", body), ("code", GoValue.float64 f),
      ("msg", GoValue.string msg)] = some (.string msg) := rfl
  have hbd : mapGet "body" [("body", body), ("code", GoValue.float64 f),
      ("msg", GoValue.string msg)] = some body := rfl
  simp [hmsg, hbd, hval]

theorem ParseResponseBody_response_roundtrip_witness :
    ((-4 : Int)).natAbs ≤ 2 ^ 53 ∧ sampleBody.generic = true ∧
      sampleBody.depth < maxNestingDepth ∧
      ∃ jsonStr, response [] sampleBody "hi" (-4) = ([] ++ [jsonStr], none) ∧
        ParseResponseBody jsonStr = .ok ⟨-4, "hi", sampleBody⟩ :=
  ⟨by decide, by decide, by decide,
    ParseResponseBody_response_roundtrip [] (-4) "hi" sampleBody (by decide) (by decide)
      (by decide)⟩

/-! ## Dispatch: parse failure and the written envelope -/

/-- C11: when the form of the request does not parse, `rootHandler` appends exactly one
envelope to the response, with code -1, the text of the parse error as message and the
empty object as body; it runs no handler (the application state is what it was), logs
the failure, and looks up no route: the outcome is the same whatever the table holds,
also when a binding matches the path and method of the request. -/
theorem rootHandler_parse_failure {σ : Type} (g : World σ) (w : ResponseWriter)
    (req : Request) (err : String) (hparse : req.formOutcome = .error err) :
    (rootHandler g w req).2 = w ++
        [Bytes.text (.object [("code", .number (.decimal true 1 0)), ("msg", .string err),
          ("body", .object [])])] ∧
      (rootHandler g w req).1.app = g.app ∧
      (rootHandler g w req).1.routerTable = g.routerTable ∧
      (rootHandler g w req).1.log = g.log ++
        ["request " ++ req.RemoteAddr ++ " " ++ req.Method ++ " -> " ++
          req.URL.String ++ " [" ++ req.URL.Path ++ "]",
         "fail to parse form " ++ req.URL.String] ∧
      (∀ table : List (HttpRouter σ),
        (rootHandler { g with routerTable := table } w req).2 = (rootHandler g w req).2 ∧
        (rootHandler { g with routerTable := table } w req).1.app = g.app) := by
  have hresp : (response w .emptyStruct err (-1)).1 = w ++
      [Bytes.text (.object [("code", .number (.decimal true 1 0)), ("msg", .string err),
        ("body", .object [])])] := rfl
  refine ⟨?_, ?_, ?_, ?_, ?_⟩
  · simp only [rootHandler, Request.ParseForm, hparse]
    exact hresp
  · simp only [rootHandler, Request.ParseForm, hparse]
  · simp only [rootHandler, Request.ParseForm, hparse]
  · simp only [rootHandler, Request.ParseForm, hparse]
    simp
  · intro table
    simp only [rootHandler, Request.ParseForm, hparse]
    exact ⟨trivial, trivial⟩

theorem rootHandler_parse_failure_witness :
    brokenRequest.formOutcome = .error "invalid URL escape \"%zz\"" ∧
      (∃ r ∈ crowdedWorld.routerTable,
        r.Location = brokenRequest.URL.Path ∧ r.Method = brokenRequest.Method) ∧
      (rootHandler crowdedWorld [] brokenRequest).2 =
        [Bytes.text (.object [("code", .number (.decimal true 1 0)),
          ("msg", .string "invalid URL escape \"%zz\""), ("body", .object [])])] ∧
      (rootHandler crowdedWorld [] brokenRequest).1.app = [] :=
  have h := rootHandler_parse_failure crowdedWorld [] brokenRequest
    "invalid URL escape \"%zz\"" rfl
  ⟨rfl, ⟨pingRouter, by simp [crowdedWorld], rfl, rfl⟩, h.1, h.2.1⟩

theorem route_at_match {σ : Type} (log : List String) (app : σ) (w : ResponseWriter)
    (req : Request) (pre : List (HttpRouter σ)) (b : HttpRouter σ)
    (post : List (HttpRouter σ))
    (hpre : ∀ r ∈ pre, ¬ (r.Location = req.URL.Path ∧ r.Method = req.Method))
    (hloc : b.Location = req.URL.Path) (hmeth : b.Method = req.Method) :
    rootHandler.route log app w req (pre ++ b :: post) =
      match response (b.Handler app w req).w (b.Handler app w req).resp
          (b.Handler app w req).msg (b.Handler app w req).code with
      | (w1, some _) =>
        (log ++ ["fail to response " ++ req.URL.String], (b.Handler app w req).app, w1)
      | (w1, none) => (log, (b.Handler app w req).app, w1) := by
  rw [route_skips log app w req pre (b :: post) hpre]
  simp only [rootHandler.route, hloc, hmeth, ne_eq, not_true_eq_false, if_false]

theorem rootHandler_of_route {σ : Type} (g : World σ) (w : ResponseWriter) (req : Request)
    (vs : Values) (hparse : req.formOutcome = .ok vs) :
    rootHandler g w req =
      ({ g with
          log := (rootHandler.route
            (g.log ++ ["request " ++ req.RemoteAddr ++ " " ++ req.Method ++ " -> " ++
              req.URL.String ++ " [" ++ req.URL.Path ++ "]"])
            g.app w { req with Form := vs } g.routerTable).1
          app := (rootHandler.route
            (g.log ++ ["request " ++ req.RemoteAddr ++ " " ++ req.Method ++ " -> " ++
              req.URL.String ++ " [" ++ req.URL.Path ++ "]"])
            g.app w { req with Form := vs } g.routerTable).2.1 },
        (rootHandler.route
          (g.log ++ ["request " ++ req.RemoteAddr ++ " " ++ req.Method ++ " -> " ++
            req.URL.String ++ " [" ++ req.URL.Path ++ "]"])
          g.app w { req with Form := vs } g.routerTable).2.2) := by
  simp [rootHandler, Request.ParseForm, hparse]

/-- C12: when the form parses, `b` is the first binding that matches the path and method
of the request, the handler of `b` writes nothing itself and returns `(body, msg, code)`
with a body that `json.Marshal` accepts, the response grows by exactly one chunk: the
JSON object with the members `code`, `msg` and `body`, in this order, that carry `code`,
`msg` and the document of `body`. -/
theorem rootHandler_writes_envelope {σ : Type} (g : World σ) (w : ResponseWriter)
    (req : Request) (vs : Values) (hparse : req.formOutcome = .ok vs)
    (pre : List (HttpRouter σ)) (b : HttpRouter σ) (post : List (HttpRouter σ))
    (hsplit : g.routerTable = pre ++ b :: post)
    (hpre : ∀ r ∈ pre, ¬ (r.Location = req.URL.Path ∧ r.Method = req.Method))
    (hloc : b.Location = req.URL.Path) (hmeth : b.Method = req.Method)
    (j : Json)
    (hser : marshalValue (b.Handler g.app w { req with Form := vs }).resp = .ok j)
    (hquiet : (b.Handler g.app w { req with Form := vs }).w = w) :
    (rootHandler g w req).2 = w ++
      [Bytes.text (.object
        [("code", .number (Number.ofInt (b.Handler g.app w { req with Form := vs }).code)),
         ("msg", .string (b.Handler g.app w { req with Form := vs }).msg),
         ("body", j)])] := by
  have hroute := route_at_match
    (g.log ++ ["request " ++ req.RemoteAddr ++ " " ++ req.Method ++ " -> " ++
      req.URL.String ++ " [" ++ req.URL.Path ++ "]"])
    g.app w { req with Form := vs } pre b post hpre hloc hmeth
  have hresp := response_ok (b.Handler g.app w { req with Form := vs }).w
    (b.Handler g.app w { req with Form := vs }).resp
    (b.Handler g.app w { req with Form := vs }).msg
    (b.Handler g.app w { req with Form := vs }).code j hser
  rw [hresp, hquiet] at hroute
  rw [rootHandler_of_route g w req vs hparse, hsplit, hroute]
  rfl

theorem rootHandler_writes_envelope_witness :
    (rootHandler (RegisterRouter emptyWorld pingRouter).1 []
        (plainRequest "GET" "/ping" "")).2 =
        [Bytes.text (.object [("code", .number (.decimal false 0 0)), ("msg", .string ""),
          ("body", .object [("ok", .bool true)])])] ∧
      (Bytes.text (.object [("code", .number (.decimal false 0 0)), ("msg", .string ""),
          ("body", .object [("ok", .bool true)])])).plainText =
        some "\x7b\"code\":0,\"msg\":\"\",\"body\":\x7b\"ok\":true\x7d\x7d" :=
  ⟨rootHandler_writes_envelope (RegisterRouter emptyWorld pingRouter).1 []
      (plainRequest "GET" "/ping" "") [] rfl [] pingRouter [] rfl
      (fun _ h => absurd h (List.not_mem_nil _)) rfl rfl
      (.object [("ok", .bool true)]) rfl rfl,
    by decide⟩

/-! ## Decoding: keys of the decoded map -/

theorem mapGet_mapSet {β : Type} (k k1 : String) (v : β) (m : List (String × β)) :
    mapGet k (mapSet k1 v m) = if k = k1 then some v else mapGet k m := by
  induction m with
  | nil => simp [mapSet, mapGet]
  | cons kv rest ih =>
    obtain ⟨k2, v2⟩ := kv
    by_cases h12 : k1 = k2
    · subst h12
      by_cases hk : k = k1 <;> simp [mapSet, mapGet, hk]
    · by_cases hlt : keyLt k1 k2
      · by_cases hk : k = k1 <;> simp [mapSet, mapGet, h12, hlt, hk]
      · by_cases hk : k = k1
        · subst hk
          simp [mapSet, mapGet, h12, hlt, ih]
        · by_cases hk2 : k = k2
          · subst hk2
            simp [mapSet, mapGet, h12, hlt, hk]
          · simp [mapSet, mapGet, h12, hlt, hk, hk2, ih]

theorem mapGet_foldl_mapSet {β : Type} (k : String) (l : List (String × β)) :
    ∀ acc : List (String × β),
      mapGet k (l.foldl (fun m kv => mapSet kv.1 kv.2 m) acc) =
        match lastValue k l with
        | some v => some v
        | none => mapGet k acc := by
  induction l with
  | nil =>
    intro acc
    rfl
  | cons kv rest ih =>
    intro acc
    obtain ⟨k1, v1⟩ := kv
    rw [List.foldl_cons, ih, mapGet_mapSet]
    cases hrest : lastValue k rest with
    | some v => simp [lastValue, hrest]
    | none =>
      by_cases hk : k = k1
      · subst hk
        simp [lastValue, hrest]
      · simp [lastValue, hrest, hk]

theorem mapGet_mapOfMembers {β : Type} (k : String) (l : List (String × β)) :
    mapGet k (mapOfMembers l) = lastValue k l := by
  unfold mapOfMembers
  rw [mapGet_foldl_mapSet]
  cases lastValue k l <;> rfl

theorem lastValue_decodeMembers (k : String) (ms : List (String × Json)) :
    lastValue k (decodeMembers ms) = (lastValue k ms).map decodeValue := by
  induction ms with
  | nil => rfl
  | cons kv rest ih =>
    obtain ⟨k1, v1⟩ := kv
    simp only [decodeMembers, lastValue, ih]
    cases lastValue k rest with
    | some v => rfl
    | none =>
      by_cases hk : k = k1 <;> simp [hk]

theorem lastValue_eq_none_iff {β : Type} (k : String) (l : List (String × β)) :
    lastValue k l = none ↔ ∀ m ∈ l, m.1 ≠ k := by
  induction l with
  | nil => simp [lastValue]
  | cons kv rest ih =>
    obtain ⟨k1, v1⟩ := kv
    cases hrest : lastValue k rest with
    | some v =>
      have hne : ¬ ∀ m ∈ rest, m.1 ≠ k := by
        rw [← ih, hrest]
        simp
      simp only [lastValue, hrest, List.mem_cons, forall_eq_or_imp]
      constructor
      · intro h
        exact Option.noConfusion h
      · intro h
        exact absurd h.2 hne
    | none =>
      have hall := ih.1 hrest
      by_cases hk : k = k1
      · subst hk
        simp [lastValue, hrest]
      · have hk1 : k1 ≠ k := fun h => hk h.symm
        simp only [lastValue, hrest, hk, if_false, List.mem_cons, forall_eq_or_imp, true_iff]
        exact ⟨hk1, hall⟩

theorem Unmarshal_object (k : String) (ms : List (String × Json))
    (hdepth : ¬ maxNestingDepth < (Json.object ms).depth) :
    mapGet k (Unmarshal (.text (.object ms))) = (lastValue k ms).map decodeValue := by
  simp only [Unmarshal, hdepth, if_false]
  rw [mapGet_mapOfMembers, lastValue_decodeMembers]

theorem Unmarshal_not_object (resBody : Bytes)
    (h : ∀ ms, resBody = .text (.object ms) → maxNestingDepth < (Json.object ms).depth) :
    Unmarshal resBody = [] := by
  cases resBody with
  | invalid raw => rfl
  | text doc =>
    by_cases hd : maxNestingDepth < doc.depth
    · simp [Unmarshal, hd]
    · cases doc with
      | object ms => exact absurd (h ms rfl) hd
      | null => simp [Unmarshal, hd]
      | bool b => simp [Unmarshal, hd]
      | number n => simp [Unmarshal, hd]
      | string s => simp [Unmarshal, hd]
      | array es => simp [Unmarshal, hd]

theorem ParseResponseBody_body_of_map (resBody : Bytes) (f : Float64) (s : String)
    (hcode : mapGet "code" (Unmarshal resBody) = some (.float64 f))
    (hmsg : mapGet "msg" (Unmarshal resBody) = some (.string s) ∨
      (mapGet "msg" (Unmarshal resBody) = none ∧
        mapGet "error" (Unmarshal resBody) = some (.string s))) :
    (mapGet "body" (Unmarshal resBody) = none →
        ParseResponseBody resBody = .ok ⟨f.toInt, s, .nil⟩) ∧
      (∀ b, mapGet "body" (Unmarshal resBody) = some b →
        ParseResponseBody resBody = .ok ⟨f.toInt, s, b⟩) ∧
      (∃ r, ParseResponseBody resBody = .ok r) ∧
      (∀ ms, resBody = .text (.object ms) →
        (mapGet "body" (Unmarshal resBody) = none ↔ ∀ m ∈ ms, m.1 ≠ "body") ∧
        mapGet "body" (Unmarshal resBody) = (lastValue "body" ms).map decodeValue) := by
  have h := ParseResponseBody_of_code resBody f hcode
  have hok : ParseResponseBody resBody =
      .ok ⟨f.toInt, s, (mapGet "body" (Unmarshal resBody)).getD .nil⟩ := by
    rcases hmsg with hm | ⟨hm, he⟩
    · rw [h, hm]
      simp
    · rw [h, hm, he]
      simp
  refine ⟨?_, ?_, ⟨_, hok⟩, ?_⟩
  · intro hb
    rw [hok, hb]
    rfl
  · intro b hb
    rw [hok, hb]
    rfl
  · intro ms hms
    subst hms
    have hdepth : ¬ maxNestingDepth < (Json.object ms).depth := by
      intro hd
      have hnil : Unmarshal (.text (.object ms)) = [] :=
        Unmarshal_not_object _ (fun ms1 h1 => by
          have : ms1 = ms := by
            injection h1 with h2
            injection h2 with h3
            exact h3.symm
          rw [this]
          exact hd)
      rw [hnil] at hcode
      exact Option.noConfusion hcode
    have hget := Unmarshal_object "body" ms hdepth
    refine ⟨?_, hget⟩
    rw [hget, Option.map_eq_none', lastValue_eq_none_iff]

theorem ParseResponseBody_code_out_of_range (ms : List (String × Json)) (n : Number)
    (hdepth : (Json.object ms).depth ≤ maxNestingDepth)
    (hcode : lastValue "code" ms = some (.number n)) (hfloat : n.parseFloat = none) :
    ParseResponseBody (.text (.object ms)) =
      .panic "interface conversion: interface {} is not float64" := by
  have hget := Unmarshal_object "code" ms (Nat.not_lt.2 hdepth)
  rw [hcode] at hget
  have hnil : decodeValue (.number n) = .nil := by
    simp [decodeValue, hfloat]
  simp only [Option.map_some', hnil] at hget
  unfold ParseResponseBody
  simp only [hget]

set_option maxRecDepth 100000 in
set_option exponentiation.threshold 5000 in
theorem parseFloat_out_of_range : (Number.decimal false 1 400).parseFloat = none := by
  decide

/-- Three objects with a numeric `code` and a string `msg`. `{"code": 0, "msg": "m"}`
decodes; the same object with a `body` of 10000 nested arrays is answered with the error
"invalid api response", so here the presence of `body` causes an error; and
`{"code": 1e400, "msg": "m"}` ends in a panic. -/
theorem ParseResponseBody_body_not_always_accepted :
    ParseResponseBody noBodyBody = .ok ⟨0, "m", .nil⟩ ∧
      ParseResponseBody (envelope (.decimal false 0 0) "m" (nestedArray 10000)) =
        .error "invalid api response" ∧
      ParseResponseBody hugeCodeBody =
        .panic "interface conversion: interface {} is not float64" := by
  refine ⟨rfl, ParseResponseBody_deep (.decimal false 0 0) "m" 10000 (Nat.le_refl 10000), ?_⟩
  exact ParseResponseBody_code_out_of_range _ (.decimal false 1 400) (by decide) rfl
    parseFloat_out_of_range

/-- C13 (amended): for bytes that spell a JSON object nested no deeper than the 10000
levels the decoder accepts, whose `code` is a number within the range of `float64` and
whose `msg` is a string (or, without a `msg` member, whose `error` is a string), a
repeated key counting by its last member: `ParseResponseBody` succeeds whether or not
`body` is there. Without a `body` member the `Body` of the envelope is `nil`; with one
it is the decoded value of `body`. -/
theorem ParseResponseBody_body_optional (ms : List (String × Json)) (n : Number)
    (f : Float64) (s : String)
    (hdepth : (Json.object ms).depth ≤ maxNestingDepth)
    (hcode : lastValue "code" ms = some (.number n)) (hfloat : n.parseFloat = some f)
    (hmsg : lastValue "msg" ms = some (.string s) ∨
      ((∀ m ∈ ms, m.1 ≠ "msg") ∧ lastValue "error" ms = some (.string s))) :
    ((∀ m ∈ ms, m.1 ≠ "body") →
        ParseResponseBody (.text (.object ms)) = .ok ⟨f.toInt, s, .nil⟩) ∧
      (∀ v, lastValue "body" ms = some v →
        ParseResponseBody (.text (.object ms)) = .ok ⟨f.toInt, s, decodeValue v⟩) ∧
      (∃ r, ParseResponseBody (.text (.object ms)) = .ok r) := by
  have hd : ¬ maxNestingDepth < (Json.object ms).depth := Nat.not_lt.2 hdepth
  have hgetcode : mapGet "code" (Unmarshal (.text (.object ms))) = some (.float64 f) := by
    rw [Unmarshal_object "code" ms hd, hcode]
    simp [decodeValue, hfloat]
  have hgetmsg : mapGet "msg" (Unmarshal (.text (.object ms))) = some (.string s) ∨
      (mapGet "msg" (Unmarshal (.text (.object ms))) = none ∧
        mapGet "error" (Unmarshal (.text (.object ms))) = some (.string s)) := by
    rcases hmsg with hm | ⟨hm, he⟩
    · left
      rw [Unmarshal_object "msg" ms hd, hm]
      simp [decodeValue]
    · right
      constructor
      · rw [Unmarshal_object "msg" ms hd, (lastValue_eq_none_iff "msg" ms).2 hm]
        rfl
      · rw [Unmarshal_object "error" ms hd, he]
        simp [decodeValue]
  obtain ⟨hnone, hsome, hex, _⟩ :=
    ParseResponseBody_body_of_map (.text (.object ms)) f s hgetcode hgetmsg
  refine ⟨?_, ?_, hex⟩
  · intro hb
    apply hnone
    rw [Unmarshal_object "body" ms hd, (lastValue_eq_none_iff "body" ms).2 hb]
    rfl
  · intro v hv
    apply hsome
    rw [Unmarshal_object "body" ms hd, hv]
    rfl

theorem ParseResponseBody_body_optional_witness :
    ParseResponseBody noBodyBody = .ok ⟨0, "m", .nil⟩ ∧
      ParseResponseBody withBodyBody =
        .ok ⟨0, "e", .slice [.nil, .map [("k", .float64 ⟨false, 2 ^ 52, -52⟩)]]⟩ := by
  have h1 := ParseResponseBody_body_optional
    [("code", .number (.decimal false 0 0)), ("msg", .string "m")]
    (.decimal false 0 0) ⟨false, 0, -1074⟩ "m" (by decide) rfl (by decide) (Or.inl rfl)
  have h2 := ParseResponseBody_body_optional
    [("code", .number (.decimal false 0 0)), ("error", .string "e"),
      ("body", .array [.null, .object [("k", .number (.decimal false 1 0))]])]
    (.decimal false 0 0) ⟨false, 0, -1074⟩ "e" (by decide) rfl (by decide)
    (Or.inr ⟨by decide, rfl⟩)
  have h3 := h2.2.1 (.array [.null, .object [("k", .number (.decimal false 1 0))]]) rfl
  have hval : decodeValue (.array [.null, .object [("k", .number (.decimal false 1 0))]]) =
      .slice [.nil, .map [("k", .float64 ⟨false, 2 ^ 52, -52⟩)]] := rfl
  rw [hval] at h3
  exact ⟨h1.1 (by decide), h3⟩

/-- C14: for bytes that `json.Unmarshal` does not decode as an object (bytes that are
not a JSON text, the empty input, a JSON value that is not an object, or an object
nested deeper than the decoder accepts), the decoded map has no
keys and `ParseResponseBody` returns the error of the `code` check, "invalid api
response", with no envelope and without a panic. -/
theorem ParseResponseBody_not_an_object (resBody : Bytes)
    (h : ∀ ms, resBody = .text (.object ms) → maxNestingDepth < (Json.object ms).depth) :
    Unmarshal resBody = [] ∧ (∀ k, mapGet k (Unmarshal resBody) = none) ∧
      ParseResponseBody resBody = .error "invalid api response" := by
  have hnil := Unmarshal_not_object resBody h
  refine ⟨hnil, ?_, ?_⟩
  · intro k
    rw [hnil]
    rfl
  · unfold ParseResponseBody
    rw [hnil]
    rfl

theorem ParseResponseBody_not_an_object_witness :
    ParseResponseBody (.text (.array [.number (.decimal false 1 0), .string "code"])) =
        .error "invalid api response" ∧
      ParseResponseBody (.invalid "") = .error "invalid api response" ∧
      ParseResponseBody (.invalid "\x7b\"code\":") = .error "invalid api response" ∧
      ParseResponseBody (.text .null) = .error "invalid api response" ∧
      ParseResponseBody (.text (.number (.decimal false 0 0))) =
        .error "invalid api response" ∧
      ParseResponseBody (.text (.string "code")) = .error "invalid api response" :=
  ⟨(ParseResponseBody_not_an_object
      (.text (.array [.number (.decimal false 1 0), .string "code"]))
      (fun _ h => Json.noConfusion (Bytes.text.inj h))).2.2,
    rfl, rfl, rfl, rfl, rfl⟩

/-- C18: when the decoded map holds a number under `code`, a string under `msg` if `msg`
is present, and a string under `error` if `msg` is absent, `ParseResponseBody` reaches
no failing type assertion: it returns an envelope and no error, whatever `body` and the
other keys hold, also when `error` is not a string beside a string `msg`. -/
theorem ParseResponseBody_well_typed (resBody : Bytes) (f : Float64)
    (hcode : mapGet "code" (Unmarshal resBody) = some (.float64 f))
    (hmsg : ∀ v, mapGet "msg" (Unmarshal resBody) = some v → ∃ s, v = .string s)
    (herr : mapGet "msg" (Unmarshal resBody) = none →
      ∃ s, mapGet "error" (Unmarshal resBody) = some (.string s)) :
    ∃ s, ParseResponseBody resBody =
      .ok ⟨f.toInt, s, (mapGet "body" (Unmarshal resBody)).getD .nil⟩ := by
  have h := ParseResponseBody_of_code resBody f hcode
  cases hm : mapGet "msg" (Unmarshal resBody) with
  | some v =>
    obtain ⟨s, hs⟩ := hmsg v hm
    subst hs
    refine ⟨s, ?_⟩
    rw [h, hm]
    simp
  | none =>
    obtain ⟨s, hs⟩ := herr hm
    refine ⟨s, ?_⟩
    rw [h, hm, hs]
    simp

theorem ParseResponseBody_well_typed_witness :
    mapGet "error" (Unmarshal mixedBody) = some (.float64 ⟨false, 7 * 2 ^ 50, -50⟩) ∧
      ParseResponseBody mixedBody = .ok ⟨3, "m", .nil⟩ ∧
      ∃ s, ParseResponseBody mixedBody =
        .ok ⟨(Float64.mk false (3 * 2 ^ 51) (-51)).toInt, s,
          (mapGet "body" (Unmarshal mixedBody)).getD .nil⟩ :=
  ⟨rfl, rfl,
    ParseResponseBody_well_typed mixedBody ⟨false, 3 * 2 ^ 51, -51⟩ rfl
      (fun _ hv => ⟨"m", (Option.some.inj hv).symm⟩)
      (fun hm => Option.noConfusion hm)⟩

/-! ## The registry keeps its keys apart -/

theorem RegisterRouter_uniqueKeys {σ : Type} (g : World σ) (b : HttpRouter σ)
    (huniq : uniqueKeys g.routerTable) : uniqueKeys (RegisterRouter g b).1.routerTable := by
  by_cases hdup : ∃ r ∈ g.routerTable, r.Location = b.Location ∧ r.Method = b.Method
  · rw [RegisterRouter_dup g b hdup]
    exact huniq
  · have hfresh : ∀ r ∈ g.routerTable,
        ¬ (r.Location = b.Location ∧ r.Method = b.Method) :=
      fun r hr hk => hdup ⟨r, hr, hk⟩
    rw [RegisterRouter_fresh g b hfresh]
    unfold uniqueKeys at huniq ⊢
    rw [List.pairwise_append]
    refine ⟨huniq, List.pairwise_singleton _ _, ?_⟩
    intro r hr c hc
    rw [List.mem_singleton.1 hc]
    exact hfresh r hr

theorem registerAll_uniqueKeys {σ : Type} (bs : List (HttpRouter σ)) :
    ∀ g : World σ, uniqueKeys g.routerTable → uniqueKeys (registerAll g bs).routerTable := by
  induction bs with
  | nil =>
    intro g hg
    exact hg
  | cons b bs ih =>
    intro g hg
    exact ih (RegisterRouter g b).1 (RegisterRouter_uniqueKeys g b hg)

/-- C15: in every state reached from the empty `routerTable` by a sequence of
`RegisterRouter` calls, accepted or rejected, no two bindings at distinct positions
share both `Location` and `Method`. -/
theorem registerAll_keys_distinct {σ : Type} (g0 : World σ) (hempty : g0.routerTable = [])
    (bs : List (HttpRouter σ)) :
    uniqueKeys (registerAll g0 bs).routerTable ∧
      ∀ (i j : Nat) (hi : i < (registerAll g0 bs).routerTable.length)
        (hj : j < (registerAll g0 bs).routerTable.length), i ≠ j →
        ¬ ((registerAll g0 bs).routerTable[i].Location =
              (registerAll g0 bs).routerTable[j].Location ∧
            (registerAll g0 bs).routerTable[i].Method =
              (registerAll g0 bs).routerTable[j].Method) := by
  have h0 : uniqueKeys g0.routerTable := by
    rw [hempty]
    exact List.Pairwise.nil
  have huniq := registerAll_uniqueKeys bs g0 h0
  refine ⟨huniq, ?_⟩
  intro i j hi hj hij hkey
  have hpw := List.pairwise_iff_getElem.1 huniq
  rcases Nat.lt_or_gt_of_ne hij with hlt | hgt
  · exact hpw i j hi hj hlt hkey
  · exact hpw j i hj hi hgt ⟨hkey.1.symm, hkey.2.symm⟩

theorem registerAll_keys_distinct_witness :
    emptyWorld.routerTable = [] ∧
      (registerAll emptyWorld crowdedWorld.routerTable).routerTable.length = 3 ∧
      uniqueKeys (registerAll emptyWorld crowdedWorld.routerTable).routerTable :=
  ⟨rfl, by decide, (registerAll_keys_distinct emptyWorld rfl crowdedWorld.routerTable).1⟩

/-! ## Dispatch: a body that cannot be serialised -/

/-- C16: when the form parses, `b` is the first binding that matches the request and the
body its handler returns is one `json.Marshal` rejects, `response` returns that error
and writes nothing, and `rootHandler` returns with the response exactly as the handler
left it (no envelope, neither this one nor the -4 one), the application state the
handler returned, and one more log line, "fail to response" with the URL. -/
theorem rootHandler_serialization_failure {σ : Type} (g : World σ) (w : ResponseWriter)
    (req : Request) (vs : Values) (hparse : req.formOutcome = .ok vs)
    (pre : List (HttpRouter σ)) (b : HttpRouter σ) (post : List (HttpRouter σ))
    (hsplit : g.routerTable = pre ++ b :: post)
    (hpre : ∀ r ∈ pre, ¬ (r.Location = req.URL.Path ∧ r.Method = req.Method))
    (hloc : b.Location = req.URL.Path) (hmeth : b.Method = req.Method)
    (e : String)
    (hfail : marshalValue (b.Handler g.app w { req with Form := vs }).resp = .error e) :
    response (b.Handler g.app w { req with Form := vs }).w
        (b.Handler g.app w { req with Form := vs }).resp
        (b.Handler g.app w { req with Form := vs }).msg
        (b.Handler g.app w { req with Form := vs }).code =
        ((b.Handler g.app w { req with Form := vs }).w, some e) ∧
      (rootHandler g w req).2 = (b.Handler g.app w { req with Form := vs }).w ∧
      (rootHandler g w req).1.app = (b.Handler g.app w { req with Form := vs }).app ∧
      (rootHandler g w req).1.routerTable = g.routerTable ∧
      (rootHandler g w req).1.log = g.log ++
        ["request " ++ req.RemoteAddr ++ " " ++ req.Method ++ " -> " ++
          req.URL.String ++ " [" ++ req.URL.Path ++ "]",
         "fail to response " ++ req.URL.String] := by
  have hresp : response (b.Handler g.app w { req with Form := vs }).w
      (b.Handler g.app w { req with Form := vs }).resp
      (b.Handler g.app w { req with Form := vs }).msg
      (b.Handler g.app w { req with Form := vs }).code =
      ((b.Handler g.app w { req with Form := vs }).w, some e) := by
    simp [response, Marshal, hfail]
  have hroute := route_at_match
    (g.log ++ ["request " ++ req.RemoteAddr ++ " " ++ req.Method ++ " -> " ++
      req.URL.String ++ " [" ++ req.URL.Path ++ "]"])
    g.app w { req with Form := vs } pre b post hpre hloc hmeth
  rw [hresp] at hroute
  refine ⟨hresp, ?_, ?_, ?_, ?_⟩
  · rw [rootHandler_of_route g w req vs hparse, hsplit, hroute]
  · rw [rootHandler_of_route g w req vs hparse, hsplit, hroute]
  · rw [rootHandler_of_route g w req vs hparse]
  · rw [rootHandler_of_route g w req vs hparse, hsplit, hroute]
    simp

theorem rootHandler_serialization_failure_witness :
    (rootHandler chanWorld [Bytes.invalid "earlier"] (plainRequest "GET" "/ping" "")).2 =
        [Bytes.invalid "earlier", Bytes.invalid "partial"] ∧
      (rootHandler chanWorld [Bytes.invalid "earlier"]
        (plainRequest "GET" "/ping" "")).1.app = ["chan"] ∧
      (rootHandler chanWorld [Bytes.invalid "earlier"]
        (plainRequest "GET" "/ping" "")).1.log =
        ["request 127.0.0.1:4000 GET -> /ping [/ping]", "fail to response /ping"] :=
  have hthm := rootHandler_serialization_failure chanWorld [Bytes.invalid "earlier"]
    (plainRequest "GET" "/ping" "") [] rfl [] chanRouter [] rfl
    (fun _ hr => absurd hr (List.not_mem_nil _)) rfl rfl "json: unsupported type" rfl
  ⟨hthm.2.1, hthm.2.2.1, hthm.2.2.2.2.trans (by decide)⟩

/-! ## Parameters: order and repetition of the required keys -/

theorem ValidateParams_eq_none_iff (keys : List String) (params : Values) :
    ValidateParams keys params = none ↔
      ∀ key ∈ keys, ¬ (((mapGet key params).getD []).length = 0 ∨
        ((mapGet key params).getD []).head? = some "") := by
  induction keys with
  | nil => simp [ValidateParams]
  | cons key rest ih =>
    by_cases hkey : ((mapGet key params).getD []).length = 0 ∨
        ((mapGet key params).getD []).head? = some ""
    · rw [ValidateParams, if_pos hkey]
      constructor
      · intro h
        exact Option.noConfusion h
      · intro h
        exact absurd hkey (h key (List.mem_cons_self key rest))
    · rw [ValidateParams, if_neg hkey, ih]
      constructor
      · intro h k hk
        rcases List.mem_cons.1 hk with hk | hk
        · rw [hk]
          exact hkey
        · exact h k hk
      · intro h k hk
        exact h k (List.mem_cons_of_mem key hk)

theorem ValidateParams_cases (keys : List String) (params : Values) :
    ValidateParams keys params = none ∨
      ValidateParams keys params = some "params are not matched or empty" := by
  induction keys with
  | nil => exact Or.inl rfl
  | cons key rest ih =>
    by_cases hkey : ((mapGet key params).getD []).length = 0 ∨
        ((mapGet key params).getD []).head? = some ""
    · right
      rw [ValidateParams, if_pos hkey]
    · rw [ValidateParams, if_neg hkey]
      exact ih

/-- C17: two lists of required keys that hold the same keys, in whatever order and
however often, give the same outcome of `ValidateParams` on every parameter map: both
succeed, or both fail with the error "params are not matched or empty". -/
theorem ValidateParams_same_keys (keys1 keys2 : List String) (params : Values)
    (hsame : ∀ k, k ∈ keys1 ↔ k ∈ keys2) :
    ValidateParams keys1 params = ValidateParams keys2 params := by
  have hiff : ValidateParams keys1 params = none ↔ ValidateParams keys2 params = none := by
    rw [ValidateParams_eq_none_iff, ValidateParams_eq_none_iff]
    constructor
    · intro h k hk
      exact h k ((hsame k).2 hk)
    · intro h k hk
      exact h k ((hsame k).1 hk)
  rcases ValidateParams_cases keys1 params with h1 | h1
  · rw [h1, hiff.1 h1]
  · rcases ValidateParams_cases keys2 params with h2 | h2
    · rw [hiff.2 h2] at h1
      exact Option.noConfusion h1
    · rw [h1, h2]

theorem ValidateParams_same_keys_witness :
    (∀ k, k ∈ ["a", "b", "a"] ↔ k ∈ ["b", "a"]) ∧
      ValidateParams ["a", "b", "a"] [("a", ["x"])] =
        some "params are not matched or empty" ∧
      ValidateParams ["a", "b", "a"] [("a", ["x"])] = ValidateParams ["b", "a"] [("a", ["x"])] :=
  have hsame : ∀ k, k ∈ ["a", "b", "a"] ↔ k ∈ ["b", "a"] := by
    intro k
    simp only [List.mem_cons, List.mem_singleton, List.not_mem_nil, or_false]
    constructor
    · rintro (h | h | h)
      · exact Or.inr h
      · exact Or.inl h
      · exact Or.inr h
    · rintro (h | h)
      · exact Or.inr (Or.inl h)
      · exact Or.inl h
  ⟨hsame, by decide, ValidateParams_same_keys ["a", "b", "a"] ["b", "a"] [("a", ["x"])] hsame⟩

/-! ## Calls of `RegisterRouter` that overlap -/

theorem step_step_eq_RegisterRouter {σ : Type} (g : World σ) (router : HttpRouter σ) :
    Registration.step (Registration.step g (.entered router)).1
        (Registration.step g (.entered router)).2 =
      ((RegisterRouter g router).1, .returned (RegisterRouter g router).2) := by
  by_cases h : g.routerTable.any
      (fun r => decide (r.Location = router.Location ∧ r.Method = router.Method)) = true
  · have e1 : Registration.step g (.entered router) =
        (g, .returned (some "router already exist")) := by
      simp only [Registration.step]
      rw [if_pos h]
    have e2 : RegisterRouter g router = (g, some "router already exist") := by
      unfold RegisterRouter
      rw [if_pos h]
    rw [e1, e2]
    rfl
  · have e1 : Registration.step g (.entered router) = (g, .checked router) := by
      simp only [Registration.step]
      rw [if_neg h]
    have e2 : RegisterRouter g router =
        ({ g with
            log := g.log ++ ["add router: " ++ router.Location ++ " " ++ router.Method]
            routerTable := g.routerTable ++ [router] }, none) := by
      unfold RegisterRouter
      rw [if_neg h]
    rw [e1, e2]
    rfl

/-- Two calls of `RegisterRouter` for `GET /ping` on the empty registry, each running its
loop before either appends: both return success and the registry holds the key twice. -/
theorem RegisterRouter_overlap_registers_twice :
    (runTwo emptyWorld (.entered pingRouter) (.entered pingRouter)
        [true, false, true, false]).1.routerTable = [pingRouter, pingRouter] ∧
      (runTwo emptyWorld (.entered pingRouter) (.entered pingRouter)
        [true, false, true, false]).2.1.done = true ∧
      (runTwo emptyWorld (.entered pingRouter) (.entered pingRouter)
        [true, false, true, false]).2.1.result = none ∧
      (runTwo emptyWorld (.entered pingRouter) (.entered pingRouter)
        [true, false, true, false]).2.2.done = true ∧
      (runTwo emptyWorld (.entered pingRouter) (.entered pingRouter)
        [true, false, true, false]).2.2.result = none ∧
      ¬ uniqueKeys [pingRouter, pingRouter] := by
  refine ⟨rfl, rfl, rfl, rfl, rfl, ?_⟩
  intro h
  unfold uniqueKeys at h
  rw [List.pairwise_cons] at h
  exact h.1 pingRouter (List.mem_singleton.2 rfl) ⟨rfl, rfl⟩

/-- C19 (amended): `RegisterRouter` holds no lock; its duplicate check and its append act
as one unit when calls do not overlap. Two calls with the same `Location` and `Method`
of which the first returns before the second starts amount to two calls of
`RegisterRouter` in a row: the second is rejected, the first succeeds exactly when the
registry did not hold the key, and a registry without two bindings of one key stays so. -/
theorem RegisterRouter_one_after_the_other {σ : Type} (g : World σ) (a b : HttpRouter σ)
    (hkey : a.Location = b.Location ∧ a.Method = b.Method)
    (huniq : uniqueKeys g.routerTable) :
    runTwo g (.entered a) (.entered b) [true, true, false, false] =
        ((RegisterRouter (RegisterRouter g a).1 b).1,
          .returned (RegisterRouter g a).2,
          .returned (RegisterRouter (RegisterRouter g a).1 b).2) ∧
      (RegisterRouter (RegisterRouter g a).1 b).2 = some "router already exist" ∧
      ((RegisterRouter g a).2 = none ↔
        ∀ r ∈ g.routerTable, ¬ (r.Location = a.Location ∧ r.Method = a.Method)) ∧
      uniqueKeys (RegisterRouter (RegisterRouter g a).1 b).1.routerTable := by
  refine ⟨?_, ?_, RegisterRouter_error_iff g a, ?_⟩
  · have ha := step_step_eq_RegisterRouter g a
    have hb := step_step_eq_RegisterRouter (RegisterRouter g a).1 b
    simp only [runTwo, ha, hb]
  · have hin : ∃ r ∈ (RegisterRouter g a).1.routerTable,
        r.Location = b.Location ∧ r.Method = b.Method := by
      by_cases hdup : ∃ r ∈ g.routerTable, r.Location = a.Location ∧ r.Method = a.Method
      · obtain ⟨r, hr, hk⟩ := hdup
        rw [RegisterRouter_dup g a ⟨r, hr, hk⟩]
        exact ⟨r, hr, hk.1.trans hkey.1, hk.2.trans hkey.2⟩
      · have hfresh : ∀ r ∈ g.routerTable,
            ¬ (r.Location = a.Location ∧ r.Method = a.Method) :=
          fun r hr hk => hdup ⟨r, hr, hk⟩
        rw [RegisterRouter_fresh g a hfresh]
        exact ⟨a, by simp, hkey.1, hkey.2⟩
    rw [RegisterRouter_dup (RegisterRouter g a).1 b hin]
  · exact RegisterRouter_uniqueKeys _ b (RegisterRouter_uniqueKeys g a huniq)

theorem RegisterRouter_one_after_the_other_witness :
    uniqueKeys emptyWorld.routerTable ∧
      (runTwo emptyWorld (.entered pingRouter) (.entered pingRouter)
        [true, true, false, false]).1.routerTable = [pingRouter] ∧
      (RegisterRouter emptyWorld pingRouter).2 = none ∧
      (RegisterRouter (RegisterRouter emptyWorld pingRouter).1 pingRouter).2 =
        some "router already exist" :=
  have huniq : uniqueKeys emptyWorld.routerTable := List.Pairwise.nil
  have h := RegisterRouter_one_after_the_other emptyWorld pingRouter pingRouter ⟨rfl, rfl⟩
    huniq
  ⟨huniq, rfl, rfl, h.2.1⟩

end httpdaemon
